import Mathlib

/-!
Verification of the parsego parser-combinator library.

The development shallowly embeds, from the Go source:
* `TextPos` / `TextRange` (`parser/textpos`),
* the two `BacktrackingScanner` implementations
  `RuneBacktrackingScanner` (fully-resident text) and
  `ScannerBacktrackingScanner` (forward-only stream) as the two
  constructors of `BTS`,
* the `RewindableScanner` (`RScan`) with its snapshot stack, and
* the combinator engine (`PParser` grammar with a fuel-indexed
  interpreter `parseStep` mirroring each `Parse` method).

Go panics are modelled as `none` / `.panic` outcomes; the Go `error`
returned by `Read` at end of input is the `.eof` outcome.
-/

set_option maxHeartbeats 1000000

/-- Line/column position, both 0-based (Go `textpos.TextPos`). -/
structure TextPos where
  line : Nat
  col : Nat
deriving DecidableEq, Repr

/-- Go `TextPos.AdvanceCol`. -/
def TextPos.advanceCol (p : TextPos) : TextPos := ⟨p.line, p.col + 1⟩

/-- Go `TextPos.AdvanceLine`. -/
def TextPos.advanceLine (p : TextPos) : TextPos := ⟨p.line + 1, 0⟩

/-- Go `TextPos.Advance`: newline starts a new line, otherwise the column advances. -/
def TextPos.advance (p : TextPos) (c : Char) : TextPos :=
  if c = '\n' then p.advanceLine else p.advanceCol

/-- Go `textpos.StartingPos`. -/
def TextPos.startingPos : TextPos := ⟨0, 0⟩

/-- Inclusive range between two positions (Go `textpos.TextRange`). -/
structure TextRange where
  start : TextPos
  endPos : TextPos
deriving DecidableEq, Repr

/-- Go `textpos.Range`. -/
def TextRange.range (a b : TextPos) : TextRange := ⟨a, b⟩

/-- Go `textpos.Single`. -/
def TextRange.single (p : TextPos) : TextRange := ⟨p, p⟩

/--
The two `BacktrackingScanner` implementations of `scanner/scan.go`:
`rbs` is `RuneBacktrackingScanner` (whole input resident, the buffer is a
window `[recordOffset, pos)` of `runes`); `sbs` is
`ScannerBacktrackingScanner` (a forward-only stream plus an explicit
recording buffer).
-/
inductive BTS where
  | rbs (runes : List Char) (pos recordOffset : Nat) (recording : Bool)
  | sbs (stream buffer : List Char) (recording : Bool)
deriving DecidableEq, Repr

namespace BTS

/-- Go `Read`: next rune, or `none` at end of input (`EOFError`). -/
def read : BTS → Option (Char × BTS)
  | rbs runes pos ro rec =>
    match runes[pos]? with
    | some c => some (c, rbs runes (pos + 1) ro rec)
    | none => none
  | sbs stream buf rec =>
    match stream with
    | c :: rest => some (c, sbs rest (if rec then buf ++ [c] else buf) rec)
    | [] => none

/-- Go `StartBuffer`: idempotently begin recording at the current cursor. -/
def startBuffer : BTS → BTS
  | rbs runes pos ro rec => if rec then rbs runes pos ro rec else rbs runes pos pos true
  | sbs stream buf _ => sbs stream buf true

/-- Go `ReadBuffer`: random access into the recorded window; `none` models the
Go index-out-of-range panic. -/
def readBuffer : BTS → Nat → Option Char
  | rbs runes _ ro _, i => runes[ro + i]?
  | sbs _ buf _, i => buf[i]?

/-- Go `BufSize`. -/
def bufSize : BTS → Nat
  | rbs _ pos ro rec => if rec then pos - ro else 0
  | sbs _ buf _ => buf.length

/-- Go `DropBuffer`: stop recording and discard the window. -/
def dropBuffer : BTS → BTS
  | rbs runes pos _ _ => rbs runes pos 0 false
  | sbs stream _ _ => sbs stream [] false

/-- Whether the source is currently recording. -/
def recording : BTS → Bool
  | rbs _ _ _ rec => rec
  | sbs _ _ rec => rec

/-- The recorded window as a list (abstraction used in proofs). -/
def bufList : BTS → List Char
  | rbs runes pos ro rec => if rec then (runes.drop ro).take (pos - ro) else []
  | sbs _ buf _ => buf

/-- The runes a live (non-replaying) `Read` will deliver, in order. -/
def liveRest : BTS → List Char
  | rbs runes pos _ _ => runes.drop pos
  | sbs stream _ _ => stream

/-- Structural well-formedness of a source; holds for all sources built by
the constructors in the Go code and is preserved by every operation. -/
def SrcInv : BTS → Prop
  | rbs runes pos ro rec => pos ≤ runes.length ∧ (rec = true → ro ≤ pos)
  | sbs _ _ _ => True

instance : DecidablePred SrcInv := by
  intro s
  cases s <;> simp only [SrcInv] <;> infer_instance

end BTS

/-- A snapshot stack frame (Go `scanner.Snapshot`): the logical buffer offset
the snapshot begins at, and the recorded position. -/
structure Snapshot where
  buffOffset : Nat
  position : TextPos
deriving DecidableEq, Repr

/-- Go `scanner.RewindableScanner`: a backtracking source plus position
tracking, a snapshot stack (head = most recent) and the replay cursor. -/
structure RScan where
  source : BTS
  currentPos : TextPos
  lastSnap : List Snapshot
  isReplaying : Bool
  replayPos : Nat
deriving DecidableEq, Repr

/-- Outcome of `RewindableScanner.Read`: a rune, end of input, or an
index-out-of-range panic inside `ReadBuffer`. -/
inductive ReadRes where
  | ok (c : Char) (s : RScan)
  | eof (s : RScan)
  | panic
deriving DecidableEq, Repr

namespace RScan

/-- The non-replaying tail of Go `RewindableScanner.Read`. -/
def liveRead (s : RScan) : ReadRes :=
  match s.source.read with
  | some (c, src') => .ok c { s with source := src', currentPos := s.currentPos.advance c }
  | none => .eof s

/-- Go `RewindableScanner.Read`: serve from the buffer while replaying,
falling back to a live read once the replay cursor reaches the end of the
buffered region. -/
def read (s : RScan) : ReadRes :=
  if s.isReplaying then
    if s.replayPos < s.source.bufSize then
      match s.source.readBuffer s.replayPos with
      | some c =>
        .ok c { s with replayPos := s.replayPos + 1, currentPos := s.currentPos.advance c }
      | none => .panic
    else liveRead { s with isReplaying := false }
  else liveRead s

/-- Go `GetPos`. -/
def getPos (s : RScan) : TextPos := s.currentPos

/-- Go `StartSnapshot`: turn recording on if the stack was empty, then push a
frame anchored at the current replay offset (if replaying) or the source's
buffer size. -/
def startSnapshot (s : RScan) : RScan :=
  let src := match s.lastSnap with
    | [] => s.source.startBuffer
    | _ :: _ => s.source
  let off := if s.isReplaying then s.replayPos else src.bufSize
  { s with source := src, lastSnap := ⟨off, s.currentPos⟩ :: s.lastSnap }

/-- Go `RewindSnapshot`: pop the top frame, restore its position, and start
replaying from its buffer offset. `none` models the Go panic on an empty
stack. -/
def rewindSnapshot (s : RScan) : Option RScan :=
  match s.lastSnap with
  | [] => none
  | f :: rest =>
    some { s with currentPos := f.position, replayPos := f.buffOffset,
                  lastSnap := rest, isReplaying := true }

/-- Go `PopSnapshot`: pop the top frame, dropping the buffer when the stack
becomes empty. `none` models the Go panic on an empty stack. -/
def popSnapshot (s : RScan) : Option RScan :=
  match s.lastSnap with
  | [] => none
  | _ :: rest =>
    some { s with lastSnap := rest,
                  source := match rest with
                    | [] => s.source.dropBuffer
                    | _ :: _ => s.source }

/-- Go `scanner.FromString`. -/
def fromString (str : String) : RScan :=
  ⟨.rbs str.data 0 0 false, TextPos.startingPos, [], false, 0⟩

/-- Go `scanner.FromReader`, with the reader's remaining runes as a list. -/
def fromStream (cs : List Char) : RScan :=
  ⟨.sbs cs [] false, TextPos.startingPos, [], false, 0⟩

end RScan

/-- Read `n` runes in order; `none` if any read hits end of input or panics. -/
def readN : Nat → RScan → Option (List Char × RScan)
  | 0, s => some ([], s)
  | n + 1, s =>
    match s.read with
    | .ok c s' =>
      match readN n s' with
      | some (cs, s'') => some (c :: cs, s'')
      | none => none
    | _ => none

/-- The sequence of runes all future `Read` calls will deliver, in order
(replayed buffer contents first, then fresh input). -/
def futureRunes (s : RScan) : List Char :=
  if s.isReplaying then s.source.bufList.drop s.replayPos ++ s.source.liveRest
  else s.source.liveRest

/-- The runes that a rewind to logical buffer offset `off` would make a
scanner over source `src` deliver. -/
def replayFrom (off : Nat) (src : BTS) : List Char :=
  src.bufList.drop off ++ src.liveRest

/-- The buffer offset `StartSnapshot` records: the replay offset while
replaying, otherwise the (possibly just-started) source's buffer size. -/
def snapOff (s : RScan) : Nat :=
  if s.isReplaying then s.replayPos
  else (match s.lastSnap with
    | [] => s.source.startBuffer
    | _ :: _ => s.source).bufSize

/-- Well-formedness of a scanner state: the source is well-formed, the replay
cursor is inside the buffered region, and an outstanding snapshot implies the
source is recording. Holds for fresh scanners. -/
def Good (s : RScan) : Prop :=
  BTS.SrcInv s.source ∧
  (s.isReplaying = true → s.replayPos ≤ s.source.bufSize) ∧
  (s.lastSnap ≠ [] → s.source.recording = true)

instance : DecidablePred Good := by
  intro s
  unfold Good
  infer_instance

/-- One source extends another: recording status is unchanged, the buffer has
only grown, and the runes appended to the buffer are exactly the runes
consumed from the live input. -/
def BTS.Extends (a b : BTS) : Prop :=
  b.recording = a.recording ∧
  ∃ d, b.bufList = a.bufList ++ d ∧ a.liveRest = d ++ b.liveRest

/-- Scanner operations, for describing concrete executions. -/
inductive ScanOp where
  | read
  | start
  | rewind
  | pop
deriving DecidableEq, Repr

/-- Run a list of scanner operations, collecting the runes delivered by the
`read` operations; `none` if any operation hits end of input or panics. -/
def runOps : List ScanOp → RScan → Option (List Char × RScan)
  | [], s => some ([], s)
  | op :: ops, s =>
    match op with
    | .read =>
      match s.read with
      | .ok c s' =>
        match runOps ops s' with
        | some (cs, s'') => some (c :: cs, s'')
        | none => none
      | _ => none
    | .start =>
      match runOps ops s.startSnapshot with
      | some (cs, s'') => some (cs, s'')
      | none => none
    | .rewind =>
      match s.rewindSnapshot with
      | some s' =>
        match runOps ops s' with
        | some (cs, s'') => some (cs, s'')
        | none => none
      | none => none
    | .pop =>
      match s.popSnapshot with
      | some s' =>
        match runOps ops s' with
        | some (cs, s'') => some (cs, s'')
        | none => none
      | none => none

/-- States reachable through the Scanner operations from a fresh scanner
over either kind of source. -/
inductive Reachable : RScan → Prop where
  | fromString (str : String) : Reachable (RScan.fromString str)
  | fromStream (cs : List Char) : Reachable (RScan.fromStream cs)
  | read {s : RScan} {c : Char} {s' : RScan} :
      Reachable s → s.read = .ok c s' → Reachable s'
  | readEof {s s' : RScan} : Reachable s → s.read = .eof s' → Reachable s'
  | start {s : RScan} : Reachable s → Reachable s.startSnapshot
  | rewind {s s' : RScan} : Reachable s → s.rewindSnapshot = some s' → Reachable s'
  | pop {s s' : RScan} : Reachable s → s.popSnapshot = some s' → Reachable s'

/-!
### The combinator engine

Parse results (`result/result.go`) carry a dynamically-shaped Go value;
in-engine values are strings or ordered lists of values (`Value`).
-/

/-- A Go `interface{}` parse value: a string or an ordered list of values. -/
inductive Value where
  | str (s : String)
  | list (vs : List Value)

/-- `result.ParseResult`: a success with range and value, or a failure with
range and error message. -/
inductive PResult where
  | success (range : TextRange) (value : Value)
  | failure (range : TextRange) (msg : String)

/-- Go `Matched()`. -/
def PResult.matched : PResult → Bool
  | .success _ _ => true
  | .failure _ _ => false

/-- Go `TextRange()`. -/
def PResult.range : PResult → TextRange
  | .success r _ => r
  | .failure r _ => r

/-- Go `Result()`; a failure carries `nil`, modelled as the empty string
(never consulted on failures by the engine). -/
def PResult.resultValue : PResult → Value
  | .success _ v => v
  | .failure _ _ => .str ""

/-- The loop body of Go `cleanupResult`: concatenate string results (the
empty string is skipped, which equals concatenating it); the first
non-string result aborts and yields the whole original list. -/
def cleanupLoop (orig : List Value) : List Value → String → Value
  | [], acc => .str acc
  | v :: vs, acc =>
    match v with
    | .str s => cleanupLoop orig vs (acc ++ s)
    | .list _ => .list orig

/-- Go `cleanupResult` (`parser/parser.go`). -/
def cleanupResult (results : List Value) : Value :=
  cleanupLoop results results ""

/-- Spec-worded merge rule ("Modelled from the spec"): `if every sub-result
is a string (empty string neutral), concatenate into one string, else return
the ordered list of sub-results`. Used to check `cleanupResult` against the
specification. -/
def allStrings (l : List Value) : Bool :=
  l.all (fun v => match v with | .str _ => true | .list _ => false)

/-- Concatenation of the string sub-results, in order. -/
def concatStrings (l : List Value) : String :=
  l.foldl (fun acc v => match v with | .str s => acc ++ s | .list _ => acc) ""

/-- The spec's merge rule as a definition (see `allStrings`). -/
def specMerge (results : List Value) : Value :=
  if allStrings results then .str (concatStrings results) else .list results

/-- Insert-or-overwrite into the association list modelling Go's
`map[string]interface{}` for `MapParser`. -/
def assocSet : List (String × Value) → String → Value → List (String × Value)
  | [], k, v => [(k, v)]
  | (k', v') :: rest, k, v =>
    if k' = k then (k, v) :: rest else (k', v') :: assocSet rest k v

/--
The combinator grammar of `parser/parser.go` / `parser/helpers.go`:
`CharRangeParser` (`char`, with `Char c = char c c`), `TokenParser`,
`CharSetParser`, `EOFParser`, `SeqParser`, `OrParser`, `ManyParser`
(`combine = true` for `Many`, `false` for `ListOf`), `MaybeParser`,
`MapParser`, `Wrapper` (`parseWith`), `LazyFn` and `IgnoreParser`.
-/
inductive PParser where
  | char (min max : Char)
  | token (t : String)
  | charSet (allowed : List Char) (invert : Bool)
  | eofP
  | seq (ps : List PParser)
  | orP (ps : List PParser)
  | many (inner : PParser) (combine : Bool)
  | maybe (inner : PParser)
  | mapP (entries : List (String × PParser)) (fn : List (String × Value) → Value)
  | parseWith (inner : PParser) (fn : Value → Value)
  | lazy (fn : Unit → PParser)
  | ignore (inner : PParser)

/-- The loop of Go `TokenParser.Parse`: read each expected rune in turn;
`none` models a panic propagated out of `Read`. -/
def tokGo : List Char → String → TextPos → RScan → Option (PResult × RScan)
  | [], seen, start, s =>
    some (.success (TextRange.range start s.currentPos) (.str seen), s)
  | c :: cs, seen, start, s =>
    match s.read with
    | .ok r s' =>
      if r = c then tokGo cs (seen.push r) start s'
      else some (.failure (TextRange.single s'.currentPos)
        ("expected token, got " ++ (seen.push r)), s')
    | .eof s' => some (.failure (TextRange.single s'.currentPos)
        "expected token, got error", s')
    | .panic => none

/-- An interpreter request: run a parser, or continue one of the loops
inside `SeqParser.Parse`, `OrParser.Parse`, `ManyParser.Parse` or
`MapParser.Parse` (with their loop state). -/
inductive Req where
  | run (p : PParser)
  | seqL (ps : List PParser) (endP : TextPos) (vals : List Value)
  | orL (ps : List PParser)
  | manyL (inner : PParser) (vals : List Value) (att : Nat)
  | mapL (entries : List (String × PParser)) (acc : List (String × Value))

/-- An interpreter outcome: a parse result, a finished loop (with its state;
`manyDone` also counts how often the inner parser was invoked), a Go panic,
or fuel exhaustion (the Go code can diverge, e.g. `Many` over an
always-succeeding parser). -/
inductive Out where
  | res (r : PResult) (s : RScan)
  | seqDone (endP : TextPos) (vals : List Value) (s : RScan)
  | manyDone (vals : List Value) (att : Nat) (s : RScan)
  | mapDone (acc : List (String × Value)) (s : RScan)
  | panic
  | fuelOut

/--
Fuel-indexed interpreter for the combinator engine; each `Parse` method of
`parser/parser.go` is mirrored by one branch, and each internal loop by a
`Req` continuation. Fuel decreases on every recursive step; `.fuelOut`
means the fuel ran out, never a parse outcome.
-/
def parseStep : Nat → Req → RScan → Out
  | 0, _, _ => .fuelOut
  | n + 1, req, s =>
    match req with
    | .run p =>
      match p with
      | .eofP =>
        match s.read with
        | .ok c s' =>
          .res (.failure (TextRange.single s'.currentPos)
            ("expected EOF, got " ++ String.singleton c)) s'
        | .eof s' => .res (.success (TextRange.single s'.currentPos) (.str "")) s'
        | .panic => .panic
      | .char mn mx =>
        match s.read with
        | .ok c s' =>
          if c < mn ∨ mx < c then
            .res (.failure (TextRange.single s'.currentPos)
              "expected a character in the range") s'
          else
            .res (.success (TextRange.range s.currentPos s'.currentPos)
              (.str (String.singleton c))) s'
        | .eof s' =>
          .res (.failure (TextRange.single s'.currentPos)
            "expected a character, got error") s'
        | .panic => .panic
      | .charSet allowed invert =>
        match s.read with
        | .ok c s' =>
          if allowed.contains c = invert then
            .res (.failure (TextRange.single s'.currentPos)
              "expected a character in the set") s'
          else
            .res (.success (TextRange.range s.currentPos s'.currentPos)
              (.str (String.singleton c))) s'
        | .eof s' =>
          .res (.failure (TextRange.single s'.currentPos)
            "expected a character, got error") s'
        | .panic => .panic
      | .token t =>
        match tokGo t.data "" s.currentPos s with
        | some (r, s') => .res r s'
        | none => .panic
      | .seq ps =>
        match parseStep n (.seqL ps ⟨0, 0⟩ []) s with
        | .seqDone e vals s' =>
          .res (.success (TextRange.range s.currentPos e) (cleanupResult vals)) s'
        | .res r s' => .res r s'
        | .fuelOut => .fuelOut
        | _ => .panic
      | .orP ps => parseStep n (.orL ps) s
      | .many inner combine =>
        match parseStep n (.manyL inner [] 0) s with
        | .manyDone vals _ s' =>
          .res (.success (TextRange.range s.currentPos s'.currentPos)
            (if combine then cleanupResult vals else .list vals)) s'
        | .fuelOut => .fuelOut
        | _ => .panic
      | .maybe inner =>
        match parseStep n (.run inner) s.startSnapshot with
        | .res r s2 =>
          if r.matched then
            match s2.popSnapshot with
            | some s3 => .res r s3
            | none => .panic
          else
            match s2.rewindSnapshot with
            | some s3 => .res (.success (TextRange.single s3.currentPos) (.str "")) s3
            | none => .panic
        | .fuelOut => .fuelOut
        | _ => .panic
      | .mapP entries fn =>
        match parseStep n (.mapL entries []) s with
        | .mapDone acc s' =>
          .res (.success (TextRange.range s.currentPos s'.currentPos) (fn acc)) s'
        | .res r s' => .res r s'
        | .fuelOut => .fuelOut
        | _ => .panic
      | .parseWith inner fn =>
        match parseStep n (.run inner) s with
        | .res r s' =>
          if r.matched then .res (.success r.range (fn r.resultValue)) s'
          else .res r s'
        | .fuelOut => .fuelOut
        | _ => .panic
      | .lazy fn => parseStep n (.run (fn ())) s
      | .ignore inner =>
        match parseStep n (.run inner) s with
        | .res r s' =>
          if r.matched then .res (.success r.range (.str "")) s'
          else .res r s'
        | .fuelOut => .fuelOut
        | _ => .panic
    | .seqL ps e vals =>
      match ps with
      | [] => .seqDone e vals s
      | p :: rest =>
        match parseStep n (.run p) s with
        | .res r s' =>
          if r.matched then
            parseStep n (.seqL rest r.range.endPos (vals ++ [r.resultValue])) s'
          else .res r s'
        | .fuelOut => .fuelOut
        | _ => .panic
    | .orL ps =>
      match ps with
      | [] => .res (.failure (TextRange.single s.currentPos) "no parser matched") s
      | p :: rest =>
        match parseStep n (.run p) s.startSnapshot with
        | .res r s2 =>
          if r.matched then
            match s2.popSnapshot with
            | some s3 => .res r s3
            | none => .panic
          else
            match s2.rewindSnapshot with
            | some s3 => parseStep n (.orL rest) s3
            | none => .panic
        | .fuelOut => .fuelOut
        | _ => .panic
    | .manyL inner vals att =>
      match parseStep n (.run inner) s.startSnapshot with
      | .res r s2 =>
        if r.matched then
          match s2.popSnapshot with
          | some s3 => parseStep n (.manyL inner (vals ++ [r.resultValue]) (att + 1)) s3
          | none => .panic
        else
          match s2.rewindSnapshot with
          | some s3 => .manyDone vals (att + 1) s3
          | none => .panic
      | .fuelOut => .fuelOut
      | _ => .panic
    | .mapL entries acc =>
      match entries with
      | [] => .mapDone acc s
      | (name, p) :: rest =>
        match parseStep n (.run p) s with
        | .res r s' =>
          if r.matched then
            parseStep n
              (.mapL rest (if name = "" then acc else assocSet acc name r.resultValue)) s'
          else .res r s'
        | .fuelOut => .fuelOut
        | _ => .panic

/-- Run a parser: Go `Parser.Parse(sc)`. -/
def parseP (n : Nat) (p : PParser) (s : RScan) : Out :=
  parseStep n (.run p) s

/-- The parse result of an outcome, when it is one. -/
def Out.resultOf : Out → Option PResult
  | .res r _ => some r
  | _ => none

/-- The scanner state carried by a non-panic, non-fuel outcome. -/
def Out.scanOf : Out → Option RScan
  | .res _ s => some s
  | .seqDone _ _ s => some s
  | .manyDone _ _ s => some s
  | .mapDone _ s => some s
  | _ => none

/-- The string payload of a value, when it is a string. -/
def Value.asString : Value → Option String
  | .str s => some s
  | .list _ => none

/-- Go `parser.Char`. -/
def PParser.charP (c : Char) : PParser := .char c c

/-- A parser that fails on every input, as used by the spec's `Or` law;
expressible in the repository as `Or()` of no alternatives, which always
returns the generic failure. -/
def AlwaysFails : PParser := .orP []

/-- The outcome constructors each request can produce (used to show the
defensive `panic` catch-alls in `parseStep` are unreachable). -/
def ReqShape : Req → Out → Prop
  | .run _, o =>
    match o with
    | .res _ _ => True
    | .panic => True
    | .fuelOut => True
    | _ => False
  | .seqL _ _ _, o =>
    match o with
    | .seqDone _ _ _ => True
    | .res _ _ => True
    | .panic => True
    | .fuelOut => True
    | _ => False
  | .orL _, o =>
    match o with
    | .res _ _ => True
    | .panic => True
    | .fuelOut => True
    | _ => False
  | .manyL _ _ _, o =>
    match o with
    | .manyDone _ _ _ => True
    | .panic => True
    | .fuelOut => True
    | _ => False
  | .mapL _ _, o =>
    match o with
    | .mapDone _ _ => True
    | .res _ _ => True
    | .panic => True
    | .fuelOut => True
    | _ => False

/-- Outcome of running a list of parsers independently in order (used to
state the `Sequence` claim): all succeeded, or the first failure with the
scanner at that point, or a panic/out-of-fuel abort. -/
inductive SubOut where
  | allOk (rs : List PResult) (s : RScan)
  | firstFail (r : PResult) (s : RScan)
  | abort

/-- Modelled from the spec: `Sequence(p1..pn)` "runs each in order; first
failure short-circuits". `subRuns` runs the parsers one after another with
the same fuel discipline as the `SeqParser.Parse` loop, collecting every
sub-result. -/
def subRuns : Nat → List PParser → RScan → SubOut
  | 0, _, _ => .abort
  | _ + 1, [], s => .allOk [] s
  | k + 1, p :: ps, s =>
    match parseStep k (.run p) s with
    | .res r s' =>
      if r.matched then
        match subRuns k ps s' with
        | .allOk rs s'' => .allOk (r :: rs) s''
        | .firstFail rf s'' => .firstFail rf s''
        | .abort => .abort
      else .firstFail r s'
    | _ => .abort

/-- The running `end` variable of `SeqParser.Parse`: the end position of the
last sub-result, or the zero value if there is none. -/
def lastEnd (e : TextPos) (rs : List PResult) : TextPos :=
  match rs.getLast? with
  | some r => r.range.endPos
  | none => e

/-! ### Basic list and source lemmas -/

lemma drop_take_append_drop (l : List Char) (k p : Nat) (hk : k ≤ p) :
    (l.drop k).take (p - k) ++ l.drop p = l.drop k := by
  have h1 : l.drop p = (l.drop k).drop (p - k) := by
    rw [List.drop_drop]
    congr 1
    omega
  rw [h1, List.take_append_drop]

lemma BTS.bufList_length {src : BTS} (h : BTS.SrcInv src) :
    src.bufList.length = src.bufSize := by
  cases src with
  | rbs runes pos ro rec =>
    obtain ⟨h1, h2⟩ := h
    cases rec with
    | false => simp [BTS.bufList, BTS.bufSize]
    | true =>
      have h3 : ro ≤ pos := h2 rfl
      simp only [BTS.bufList, BTS.bufSize, if_true]
      rw [List.length_take, List.length_drop]
      omega
  | sbs stream buf rec => simp [BTS.bufList, BTS.bufSize]

lemma BTS.Extends.refl (src : BTS) : BTS.Extends src src :=
  ⟨rfl, [], by simp, by simp⟩

lemma BTS.Extends.trans {a b c : BTS} (h1 : BTS.Extends a b) (h2 : BTS.Extends b c) :
    BTS.Extends a c := by
  obtain ⟨hr1, d1, hb1, hl1⟩ := h1
  obtain ⟨hr2, d2, hb2, hl2⟩ := h2
  exact ⟨hr2.trans hr1, d1 ++ d2, by rw [hb2, hb1, List.append_assoc],
    by rw [hl1, hl2, List.append_assoc]⟩

lemma replayFrom_extends {a b : BTS} (hx : BTS.Extends a b) (hi : BTS.SrcInv a)
    {off : Nat} (hoff : off ≤ a.bufSize) : replayFrom off b = replayFrom off a := by
  obtain ⟨_, d, hb, hl⟩ := hx
  have hlen : off ≤ a.bufList.length := by rw [BTS.bufList_length hi]; exact hoff
  unfold replayFrom
  rw [hb, hl, List.drop_append_of_le_length hlen, List.append_assoc]

/-! ### Read simulation -/

lemma read_future_nil {s : RScan} (hg : Good s) (hf : futureRunes s = []) :
    ∃ s', s.read = .eof s' ∧ s'.source = s.source ∧ s'.currentPos = s.currentPos ∧
      s'.lastSnap = s.lastSnap ∧ futureRunes s' = [] ∧ Good s' := by
  obtain ⟨src, cp, stk, rep, rp⟩ := s
  obtain ⟨hsi, hrp, hrec⟩ := hg
  replace hsi : BTS.SrcInv src := hsi
  replace hrp : rep = true → rp ≤ src.bufSize := hrp
  replace hrec : stk ≠ [] → src.recording = true := hrec
  simp only [futureRunes] at hf
  have hlive : src.liveRest = [] := by
    rcases rep with _ | _
    · simpa using hf
    · simp only [if_true, List.append_eq_nil] at hf
      exact hf.2
  have hread : src.read = none := by
    cases src with
    | rbs runes pos ro rec =>
      simp only [BTS.liveRest] at hlive
      have : runes.length ≤ pos := by
        by_contra h
        push_neg at h
        have := List.drop_eq_nil_iff.mp hlive
        omega
      simp [BTS.read, List.getElem?_eq_none this]
    | sbs stream buf rec =>
      simp only [BTS.liveRest] at hlive
      subst hlive
      simp [BTS.read]
  rcases rep with _ | _
  · refine ⟨⟨src, cp, stk, false, rp⟩, ?_, rfl, rfl, rfl, ?_, ?_⟩
    · simp [RScan.read, RScan.liveRead, hread]
    · simp [futureRunes, hlive]
    · exact ⟨hsi, by simp, hrec⟩
  · have hnolt : ¬ (rp < src.bufSize) := by
      have h2 : src.bufList.drop rp = [] := by
        simp only [if_true, List.append_eq_nil] at hf
        exact hf.1
      have h3 : src.bufList.length ≤ rp := List.drop_eq_nil_iff.mp h2
      rw [BTS.bufList_length hsi] at h3
      omega
    refine ⟨⟨src, cp, stk, false, rp⟩, ?_, rfl, rfl, rfl, ?_, ?_⟩
    · simp [RScan.read, RScan.liveRead, hnolt, hread]
    · simp [futureRunes, hlive]
    · exact ⟨hsi, by simp, hrec⟩

lemma BTS.read_cons {src : BTS} (hsi : BTS.SrcInv src) {c : Char} {rest : List Char}
    (hl : src.liveRest = c :: rest) :
    ∃ src', src.read = some (c, src') ∧ BTS.SrcInv src' ∧ src'.liveRest = rest ∧
      src'.recording = src.recording ∧ src.bufSize ≤ src'.bufSize ∧
      (src.recording = true → src'.bufList = src.bufList ++ [c]) ∧
      (src.recording = false → src'.bufList = src.bufList) := by
  cases src with
  | rbs runes pos ro rec =>
    obtain ⟨h1, h2⟩ := hsi
    simp only [BTS.liveRest] at hl
    have hpos : pos < runes.length := by
      by_contra h
      push_neg at h
      rw [List.drop_eq_nil_iff.mpr h] at hl
      exact List.noConfusion hl
    have hget : runes[pos]? = some c := by
      have := List.getElem?_drop runes pos 0
      rw [hl] at this
      simpa using this.symm
    have hdrop1 : runes.drop (pos + 1) = rest := by
      have : (runes.drop pos).drop 1 = runes.drop (pos + 1) := List.drop_drop 1 pos runes
      rw [hl] at this
      simpa using this.symm
    refine ⟨.rbs runes (pos + 1) ro rec, ?_, ⟨by omega, fun hr => by have := h2 hr; omega⟩,
      ?_, rfl, ?_, ?_, ?_⟩
    · simp [BTS.read, hget]
    · simpa [BTS.liveRest] using hdrop1
    · cases rec with
      | false => simp [BTS.bufSize]
      | true =>
        simp only [BTS.bufSize, if_true]
        omega
    · intro hr
      subst hr
      have hro : ro ≤ pos := h2 rfl
      simp only [BTS.bufList, if_true]
      have hstep : pos + 1 - ro = (pos - ro) + 1 := by omega
      rw [hstep, List.take_succ]
      congr 1
      have : (runes.drop ro)[pos - ro]? = runes[ro + (pos - ro)]? := List.getElem?_drop runes ro (pos - ro)
      rw [this]
      have : ro + (pos - ro) = pos := by omega
      rw [this, hget]
      rfl
    · intro hr
      subst hr
      simp [BTS.bufList]
  | sbs stream buf rec =>
    simp only [BTS.liveRest] at hl
    subst hl
    refine ⟨.sbs rest (if rec then buf ++ [c] else buf) rec, by simp [BTS.read], trivial,
      rfl, rfl, ?_, ?_, ?_⟩
    · cases rec <;> simp [BTS.bufSize]
    · intro hr
      subst hr
      simp [BTS.bufList]
    · intro hr
      subst hr
      simp [BTS.bufList]

lemma BTS.readBuffer_lt {src : BTS} (hsi : BTS.SrcInv src) {i : Nat} (hi : i < src.bufSize) :
    src.readBuffer i = src.bufList[i]? := by
  cases src with
  | rbs runes pos ro rec =>
    obtain ⟨h1, h2⟩ := hsi
    cases rec with
    | false => simp [BTS.bufSize] at hi
    | true =>
      have hro : ro ≤ pos := h2 rfl
      simp only [BTS.bufSize, if_true] at hi
      simp only [BTS.readBuffer, BTS.bufList, if_true]
      rw [List.getElem?_take_of_lt hi, List.getElem?_drop]
  | sbs stream buf rec =>
    simp [BTS.readBuffer, BTS.bufList]

lemma futureRunes_mk_true (src : BTS) (cp : TextPos) (stk : List Snapshot) (rp : Nat) :
    futureRunes ⟨src, cp, stk, true, rp⟩ = src.bufList.drop rp ++ src.liveRest := by
  simp [futureRunes]

lemma futureRunes_mk_false (src : BTS) (cp : TextPos) (stk : List Snapshot) (rp : Nat) :
    futureRunes ⟨src, cp, stk, false, rp⟩ = src.liveRest := by
  simp [futureRunes]

lemma read_future_cons {s : RScan} {c : Char} {rest : List Char}
    (hg : Good s) (hf : futureRunes s = c :: rest) :
    ∃ s', s.read = .ok c s' ∧ Good s' ∧ futureRunes s' = rest ∧
      s'.lastSnap = s.lastSnap ∧ s'.currentPos = s.currentPos.advance c ∧
      s'.source.recording = s.source.recording ∧
      s.source.bufSize ≤ s'.source.bufSize ∧
      (s.source.recording = true → BTS.Extends s.source s'.source) := by
  obtain ⟨src, cp, stk, rep, rp⟩ := s
  obtain ⟨hsi, hrp, hrec⟩ := hg
  replace hsi : BTS.SrcInv src := hsi
  replace hrp : rep = true → rp ≤ src.bufSize := hrp
  replace hrec : stk ≠ [] → src.recording = true := hrec
  cases rep with
  | false =>
    rw [futureRunes_mk_false] at hf
    obtain ⟨src', hread, hsi', hlive', hrec', hbs', hbl1, hbl0⟩ := BTS.read_cons hsi hf
    refine ⟨⟨src', cp.advance c, stk, false, rp⟩, ?_, ⟨hsi', by simp, ?_⟩, ?_, rfl, rfl,
      hrec', hbs', ?_⟩
    · simp [RScan.read, RScan.liveRead, hread]
    · intro hs
      rw [hrec']
      exact hrec hs
    · rw [futureRunes_mk_false]
      exact hlive'
    · intro hr
      replace hr : src.recording = true := hr
      refine ⟨?_, [c], hbl1 hr, ?_⟩
      · show src'.recording = src.recording
        exact hrec'
      · show src.liveRest = [c] ++ src'.liveRest
        rw [hf, hlive']
        rfl
  | true =>
    rw [futureRunes_mk_true] at hf
    by_cases hlt : rp < src.bufSize
    · have hlen : rp < src.bufList.length := by rw [BTS.bufList_length hsi]; exact hlt
      have hdecomp : src.bufList.drop rp = src.bufList[rp] :: src.bufList.drop (rp + 1) :=
        List.drop_eq_getElem_cons hlen
      rw [hdecomp, List.cons_append] at hf
      have hc : src.bufList[rp] = c := (List.cons.injEq _ _ _ _ ▸ hf).1
      have hrest : src.bufList.drop (rp + 1) ++ src.liveRest = rest :=
        (List.cons.injEq _ _ _ _ ▸ hf).2
      refine ⟨⟨src, cp.advance c, stk, true, rp + 1⟩, ?_, ⟨hsi, fun _ => hlt, hrec⟩, ?_,
        rfl, rfl, rfl, le_refl _, fun _ => BTS.Extends.refl src⟩
      · have hrb : src.readBuffer rp = some c := by
          rw [BTS.readBuffer_lt hsi hlt, List.getElem?_eq_getElem hlen, hc]
        simp [RScan.read, hlt, hrb]
      · rw [futureRunes_mk_true]
        exact hrest
    · have hle : rp ≤ src.bufSize := hrp rfl
      have hrpeq : src.bufList.drop rp = [] := by
        apply List.drop_eq_nil_iff.mpr
        rw [BTS.bufList_length hsi]
        omega
      rw [hrpeq, List.nil_append] at hf
      obtain ⟨src', hread, hsi', hlive', hrec', hbs', hbl1, hbl0⟩ := BTS.read_cons hsi hf
      refine ⟨⟨src', cp.advance c, stk, false, rp⟩, ?_, ⟨hsi', by simp, ?_⟩, ?_, rfl, rfl,
        hrec', hbs', ?_⟩
      · simp [RScan.read, RScan.liveRead, hlt, hread]
      · intro hs
        rw [hrec']
        exact hrec hs
      · rw [futureRunes_mk_false]
        exact hlive'
      · intro hr
        replace hr : src.recording = true := hr
        refine ⟨?_, [c], hbl1 hr, ?_⟩
        · show src'.recording = src.recording
          exact hrec'
        · show src.liveRest = [c] ++ src'.liveRest
          rw [hf, hlive']
          rfl

lemma BTS.drop_bufSize {src : BTS} (hsi : BTS.SrcInv src) :
    src.bufList.drop src.bufSize = [] := by
  apply List.drop_eq_nil_iff.mpr
  rw [BTS.bufList_length hsi]

lemma read_ok_future {s : RScan} {c : Char} {s' : RScan}
    (hg : Good s) (h : s.read = .ok c s') :
    futureRunes s = c :: futureRunes s' ∧ Good s' ∧ s'.lastSnap = s.lastSnap ∧
      s'.currentPos = s.currentPos.advance c ∧
      s'.source.recording = s.source.recording ∧
      s.source.bufSize ≤ s'.source.bufSize ∧
      (s.source.recording = true → BTS.Extends s.source s'.source) := by
  cases hfr : futureRunes s with
  | nil =>
    obtain ⟨t, ht, -⟩ := read_future_nil hg hfr
    rw [h] at ht
    exact absurd ht (by simp)
  | cons c0 rest =>
    obtain ⟨t, ht, hg', hfut, hsnap, hpos, hrec, hbs, hext⟩ := read_future_cons hg hfr
    rw [h] at ht
    injection ht with h1 h2
    subst h1
    subst h2
    exact ⟨by rw [hfut], hg', hsnap, hpos, hrec, hbs, hext⟩

lemma readN_spec : ∀ {n : Nat} {s : RScan} {rs : List Char} {s' : RScan},
    Good s → readN n s = some (rs, s') →
    futureRunes s = rs ++ futureRunes s' ∧ Good s' ∧ s'.lastSnap = s.lastSnap ∧
      s'.source.recording = s.source.recording ∧
      s.source.bufSize ≤ s'.source.bufSize ∧
      (s.source.recording = true → BTS.Extends s.source s'.source) ∧
      rs.length = n := by
  intro n
  induction n with
  | zero =>
    intro s rs s' hg h
    simp only [readN, Option.some.injEq, Prod.mk.injEq] at h
    obtain ⟨h1, h2⟩ := h
    subst h1
    subst h2
    exact ⟨by simp, hg, rfl, rfl, le_refl _, fun _ => BTS.Extends.refl _, rfl⟩
  | succ n ih =>
    intro s rs s' hg h
    simp only [readN] at h
    cases hr : s.read with
    | ok c s1 =>
      rw [hr] at h
      dsimp only at h
      cases hrn : readN n s1 with
      | none => rw [hrn] at h; exact absurd h (by simp)
      | some p =>
        obtain ⟨cs, s2⟩ := p
        rw [hrn] at h
        simp only [Option.some.injEq, Prod.mk.injEq] at h
        obtain ⟨h1, h2⟩ := h
        subst h1
        subst h2
        obtain ⟨hfut, hg1, hsnap1, hpos1, hrec1, hbs1, hext1⟩ := read_ok_future hg hr
        obtain ⟨hfut2, hg2, hsnap2, hrec2, hbs2, hext2, hlen⟩ := ih hg1 hrn
        refine ⟨by rw [hfut, hfut2]; rfl, hg2, hsnap2.trans hsnap1,
          hrec2.trans hrec1, le_trans hbs1 hbs2, ?_, by simp [hlen]⟩
        intro hrc
        exact (hext1 hrc).trans (hext2 (hrec1.trans hrc))
    | eof s1 => rw [hr] at h; dsimp only at h; exact absurd h (by simp)
    | panic => rw [hr] at h; dsimp only at h; exact absurd h (by simp)

lemma readN_of_future : ∀ {rs : List Char} {s : RScan} {rest : List Char},
    Good s → futureRunes s = rs ++ rest →
    ∃ s', readN rs.length s = some (rs, s') ∧ Good s' ∧ futureRunes s' = rest ∧
      s'.lastSnap = s.lastSnap := by
  intro rs
  induction rs with
  | nil =>
    intro s rest hg h
    exact ⟨s, by simp [readN], hg, by simpa using h, rfl⟩
  | cons c cs ih =>
    intro s rest hg h
    rw [List.cons_append] at h
    obtain ⟨s1, hread, hg1, hfut1, hsnap1, -, -, -, -⟩ := read_future_cons hg h
    obtain ⟨s2, hrn, hg2, hfut2, hsnap2⟩ := ih hg1 hfut1
    refine ⟨s2, ?_, hg2, hfut2, hsnap2.trans hsnap1⟩
    simp only [List.length_cons, readN, hread, hrn]

lemma BTS.startBuffer_facts {src : BTS} (hsi : BTS.SrcInv src) :
    BTS.SrcInv src.startBuffer ∧ src.startBuffer.recording = true ∧
      src.startBuffer.liveRest = src.liveRest ∧
      src.startBuffer.bufList = src.bufList ∧
      src.startBuffer.bufSize = src.bufSize ∧
      (src.recording = true → src.startBuffer = src) := by
  cases src with
  | rbs runes pos ro rec =>
    obtain ⟨h1, h2⟩ := hsi
    cases rec with
    | true =>
      have : (BTS.rbs runes pos ro true).startBuffer = .rbs runes pos ro true := by
        simp [BTS.startBuffer]
      rw [this]
      exact ⟨⟨h1, h2⟩, rfl, rfl, rfl, rfl, fun _ => rfl⟩
    | false =>
      have : (BTS.rbs runes pos ro false).startBuffer = .rbs runes pos pos true := by
        simp [BTS.startBuffer]
      rw [this]
      refine ⟨⟨h1, fun _ => le_refl pos⟩, rfl, rfl, ?_, ?_, ?_⟩
      · simp [BTS.bufList]
      · simp [BTS.bufSize]
      · intro h
        exact absurd h (by simp [BTS.recording])
  | sbs stream buf rec =>
    have : (BTS.sbs stream buf rec).startBuffer = .sbs stream buf true := by
      simp [BTS.startBuffer]
    rw [this]
    refine ⟨trivial, rfl, rfl, rfl, rfl, ?_⟩
    intro h
    replace h : rec = true := h
    rw [h]

lemma startSnapshot_spec {s : RScan} (hg : Good s) :
    s.startSnapshot.lastSnap = ⟨snapOff s, s.currentPos⟩ :: s.lastSnap ∧
      s.startSnapshot.currentPos = s.currentPos ∧
      s.startSnapshot.isReplaying = s.isReplaying ∧
      s.startSnapshot.replayPos = s.replayPos ∧
      Good s.startSnapshot ∧
      s.startSnapshot.source.recording = true ∧
      futureRunes s.startSnapshot = futureRunes s ∧
      replayFrom (snapOff s) s.startSnapshot.source = futureRunes s ∧
      snapOff s ≤ s.startSnapshot.source.bufSize ∧
      (s.source.recording = true → s.startSnapshot.source = s.source) := by
  obtain ⟨src, cp, stk, rep, rp⟩ := s
  obtain ⟨hsi, hrp, hrec⟩ := hg
  replace hsi : BTS.SrcInv src := hsi
  replace hrp : rep = true → rp ≤ src.bufSize := hrp
  replace hrec : stk ≠ [] → src.recording = true := hrec
  have key : ∀ (src' : BTS), BTS.SrcInv src' → src'.recording = true →
      src'.bufList = src.bufList → src'.liveRest = src.liveRest →
      src'.bufSize = src.bufSize →
      Good ⟨src', cp, ⟨(if rep then rp else src'.bufSize), cp⟩ :: stk, rep, rp⟩ ∧
      futureRunes ⟨src', cp, ⟨(if rep then rp else src'.bufSize), cp⟩ :: stk, rep, rp⟩ =
        futureRunes ⟨src, cp, stk, rep, rp⟩ ∧
      replayFrom (if rep then rp else src'.bufSize) src' =
        futureRunes ⟨src, cp, stk, rep, rp⟩ ∧
      (if rep then rp else src'.bufSize) ≤ src'.bufSize := by
    intro src' hsi' hrec' hbl' hlr' hbs'
    refine ⟨⟨hsi', ?_, fun _ => hrec'⟩, ?_, ?_, ?_⟩
    · intro hr
      replace hr : rep = true := hr
      show rp ≤ src'.bufSize
      rw [hbs']
      exact hrp hr
    · cases rep with
      | false => rw [futureRunes_mk_false, futureRunes_mk_false, hlr']
      | true => rw [futureRunes_mk_true, futureRunes_mk_true, hbl', hlr']
    · cases rep with
      | false =>
        simp only [Bool.false_eq_true, if_false]
        rw [futureRunes_mk_false]
        unfold replayFrom
        rw [hbs', hbl', hlr', BTS.drop_bufSize hsi, List.nil_append]
      | true =>
        simp only [if_true]
        rw [futureRunes_mk_true]
        unfold replayFrom
        rw [hbl', hlr']
    · cases rep with
      | false => simp
      | true =>
        simp only [if_true]
        rw [hbs']
        exact hrp rfl
  cases stk with
  | cons f rest =>
    have hrc : src.recording = true := hrec (by simp)
    obtain ⟨k1, k2, k3, k4⟩ := key src hsi hrc rfl rfl rfl
    exact ⟨rfl, rfl, rfl, rfl, k1, hrc, k2, k3, k4, fun _ => rfl⟩
  | nil =>
    obtain ⟨b1, b2, b3, b4, b5, b6⟩ := BTS.startBuffer_facts hsi
    obtain ⟨k1, k2, k3, k4⟩ := key src.startBuffer b1 b2 b4 b3 b5
    refine ⟨rfl, rfl, rfl, rfl, k1, b2, k2, k3, k4, fun h => ?_⟩
    show src.startBuffer = src
    exact b6 h

lemma rewindSnapshot_cons {s : RScan} {f : Snapshot} {rest : List Snapshot}
    (h : s.lastSnap = f :: rest) :
    s.rewindSnapshot = some ⟨s.source, f.position, rest, true, f.buffOffset⟩ := by
  obtain ⟨src, cp, stk, rep, rp⟩ := s
  simp only at h
  subst h
  simp [RScan.rewindSnapshot]

lemma popSnapshot_cons_cons {s : RScan} {f g : Snapshot} {rest : List Snapshot}
    (h : s.lastSnap = f :: g :: rest) :
    s.popSnapshot = some ⟨s.source, s.currentPos, g :: rest, s.isReplaying, s.replayPos⟩ := by
  obtain ⟨src, cp, stk, rep, rp⟩ := s
  simp only at h
  subst h
  simp [RScan.popSnapshot]

lemma popSnapshot_cons_nil {s : RScan} {f : Snapshot} (h : s.lastSnap = [f]) :
    s.popSnapshot =
      some ⟨s.source.dropBuffer, s.currentPos, [], s.isReplaying, s.replayPos⟩ := by
  obtain ⟨src, cp, stk, rep, rp⟩ := s
  simp only at h
  subst h
  simp [RScan.popSnapshot]

/-! ### Panic freedom of the scanner operations -/

lemma read_srcInv {s : RScan} (hsi : BTS.SrcInv s.source) :
    s.read ≠ .panic ∧
      (∀ c s', s.read = .ok c s' → BTS.SrcInv s'.source ∧ s'.lastSnap = s.lastSnap) ∧
      (∀ s', s.read = .eof s' → s'.source = s.source ∧ s'.lastSnap = s.lastSnap) := by
  obtain ⟨src, cp, stk, rep, rp⟩ := s
  replace hsi : BTS.SrcInv src := hsi
  have hlive : ∀ (rep' : Bool),
      (RScan.liveRead ⟨src, cp, stk, rep', rp⟩ ≠ .panic ∧
        (∀ c s', RScan.liveRead ⟨src, cp, stk, rep', rp⟩ = .ok c s' →
          BTS.SrcInv s'.source ∧ s'.lastSnap = stk) ∧
        (∀ s', RScan.liveRead ⟨src, cp, stk, rep', rp⟩ = .eof s' →
          s'.source = src ∧ s'.lastSnap = stk)) := by
    intro rep'
    cases hrd : src.read with
    | none =>
      refine ⟨?_, ?_, ?_⟩
      · simp [RScan.liveRead, hrd]
      · intro c s' h
        simp [RScan.liveRead, hrd] at h
      · intro s' h
        simp only [RScan.liveRead, hrd] at h
        injection h with h1
        subst h1
        exact ⟨rfl, rfl⟩
    | some p =>
      obtain ⟨c0, src'⟩ := p
      have hsi' : BTS.SrcInv src' := by
        cases src with
        | rbs runes pos ro rec =>
          obtain ⟨h1, h2⟩ := hsi
          simp only [BTS.read] at hrd
          cases hg : runes[pos]? with
          | none => rw [hg] at hrd; exact absurd hrd (by simp)
          | some c1 =>
            rw [hg] at hrd
            injection hrd with hrd
            injection hrd with hc hsrc
            subst hsrc
            have : pos < runes.length := List.getElem?_eq_some_iff.mp hg |>.1
            exact ⟨by omega, fun hr => by have := h2 hr; omega⟩
        | sbs stream buf rec =>
          cases stream with
          | nil => simp [BTS.read] at hrd
          | cons c1 rest =>
            simp only [BTS.read] at hrd
            injection hrd with hrd
            injection hrd with hc hsrc
            subst hsrc
            trivial
      refine ⟨?_, ?_, ?_⟩
      · simp [RScan.liveRead, hrd]
      · intro c s' h
        simp only [RScan.liveRead, hrd] at h
        injection h with h1 h2
        subst h2
        exact ⟨hsi', rfl⟩
      · intro s' h
        simp [RScan.liveRead, hrd] at h
  cases rep with
  | false =>
    have h := hlive false
    have hunfold : (⟨src, cp, stk, false, rp⟩ : RScan).read =
        RScan.liveRead ⟨src, cp, stk, false, rp⟩ := by
      simp [RScan.read]
    rw [hunfold]
    exact h
  | true =>
    by_cases hlt : rp < src.bufSize
    · have hrb : ∃ c, src.readBuffer rp = some c := by
        cases src with
        | rbs runes pos ro rec =>
          obtain ⟨h1, h2⟩ := hsi
          cases rec with
          | false => simp [BTS.bufSize] at hlt
          | true =>
            have hro : ro ≤ pos := h2 rfl
            simp only [BTS.bufSize, if_true] at hlt
            refine ⟨runes.get ⟨ro + rp, by omega⟩, ?_⟩
            simp [BTS.readBuffer, List.getElem?_eq_getElem, List.get_eq_getElem]
        | sbs stream buf rec =>
          simp only [BTS.bufSize] at hlt
          exact ⟨buf.get ⟨rp, hlt⟩, by
            simp [BTS.readBuffer, List.getElem?_eq_getElem, List.get_eq_getElem]⟩
      obtain ⟨c, hc⟩ := hrb
      have hunfold : (⟨src, cp, stk, true, rp⟩ : RScan).read =
          .ok c ⟨src, cp.advance c, stk, true, rp + 1⟩ := by
        simp [RScan.read, hlt, hc]
      rw [hunfold]
      refine ⟨by simp, ?_, ?_⟩
      · intro c' s' h
        injection h with h1 h2
        subst h2
        exact ⟨hsi, rfl⟩
      · intro s' h
        exact absurd h (by simp)
    · have h := hlive false
      have hunfold : (⟨src, cp, stk, true, rp⟩ : RScan).read =
          RScan.liveRead ⟨src, cp, stk, false, rp⟩ := by
        simp [RScan.read, hlt]
      rw [hunfold]
      exact h

lemma startSnapshot_srcInv {s : RScan} (hsi : BTS.SrcInv s.source) :
    BTS.SrcInv s.startSnapshot.source ∧
      s.startSnapshot.lastSnap = ⟨snapOff s, s.currentPos⟩ :: s.lastSnap := by
  obtain ⟨src, cp, stk, rep, rp⟩ := s
  replace hsi : BTS.SrcInv src := hsi
  cases stk with
  | cons f rest => exact ⟨hsi, rfl⟩
  | nil => exact ⟨(BTS.startBuffer_facts hsi).1, rfl⟩

lemma dropBuffer_srcInv {src : BTS} (hsi : BTS.SrcInv src) :
    BTS.SrcInv src.dropBuffer := by
  cases src with
  | rbs runes pos ro rec => exact ⟨hsi.1, by simp⟩
  | sbs stream buf rec => trivial

lemma popSnapshot_srcInv {s s' : RScan} (hsi : BTS.SrcInv s.source)
    (h : s.popSnapshot = some s') :
    BTS.SrcInv s'.source ∧ ∃ f, s.lastSnap = f :: s'.lastSnap := by
  obtain ⟨src, cp, stk, rep, rp⟩ := s
  replace hsi : BTS.SrcInv src := hsi
  cases stk with
  | nil => simp [RScan.popSnapshot] at h
  | cons f rest =>
    cases rest with
    | nil =>
      rw [popSnapshot_cons_nil rfl] at h
      injection h with h
      subst h
      exact ⟨dropBuffer_srcInv hsi, f, rfl⟩
    | cons g rest' =>
      rw [popSnapshot_cons_cons rfl] at h
      injection h with h
      subst h
      exact ⟨hsi, f, rfl⟩

lemma rewindSnapshot_srcInv {s s' : RScan} (hsi : BTS.SrcInv s.source)
    (h : s.rewindSnapshot = some s') :
    BTS.SrcInv s'.source ∧ ∃ f, s.lastSnap = f :: s'.lastSnap := by
  obtain ⟨src, cp, stk, rep, rp⟩ := s
  replace hsi : BTS.SrcInv src := hsi
  cases stk with
  | nil => simp [RScan.rewindSnapshot] at h
  | cons f rest =>
    rw [rewindSnapshot_cons rfl] at h
    injection h with h
    subst h
    exact ⟨hsi, f, rfl⟩

/-! ### Unfolding equations for the interpreter -/

lemma parseStep_zero (req : Req) (s : RScan) : parseStep 0 req s = .fuelOut := rfl

lemma parseStep_eofP (n : Nat) (s : RScan) :
    parseStep (n + 1) (.run .eofP) s =
      match s.read with
      | .ok c s' =>
        .res (.failure (TextRange.single s'.currentPos)
          ("expected EOF, got " ++ String.singleton c)) s'
      | .eof s' => .res (.success (TextRange.single s'.currentPos) (.str "")) s'
      | .panic => .panic := rfl

lemma parseStep_char (n : Nat) (mn mx : Char) (s : RScan) :
    parseStep (n + 1) (.run (.char mn mx)) s =
      match s.read with
      | .ok c s' =>
        if c < mn ∨ mx < c then
          .res (.failure (TextRange.single s'.currentPos)
            "expected a character in the range") s'
        else
          .res (.success (TextRange.range s.currentPos s'.currentPos)
            (.str (String.singleton c))) s'
      | .eof s' =>
        .res (.failure (TextRange.single s'.currentPos)
          "expected a character, got error") s'
      | .panic => .panic := rfl

lemma parseStep_charSet (n : Nat) (allowed : List Char) (invert : Bool) (s : RScan) :
    parseStep (n + 1) (.run (.charSet allowed invert)) s =
      match s.read with
      | .ok c s' =>
        if allowed.contains c = invert then
          .res (.failure (TextRange.single s'.currentPos)
            "expected a character in the set") s'
        else
          .res (.success (TextRange.range s.currentPos s'.currentPos)
            (.str (String.singleton c))) s'
      | .eof s' =>
        .res (.failure (TextRange.single s'.currentPos)
          "expected a character, got error") s'
      | .panic => .panic := rfl

lemma parseStep_token (n : Nat) (t : String) (s : RScan) :
    parseStep (n + 1) (.run (.token t)) s =
      match tokGo t.data "" s.currentPos s with
      | some (r, s') => .res r s'
      | none => .panic := rfl

lemma parseStep_seq (n : Nat) (ps : List PParser) (s : RScan) :
    parseStep (n + 1) (.run (.seq ps)) s =
      match parseStep n (.seqL ps ⟨0, 0⟩ []) s with
      | .seqDone e vals s' =>
        .res (.success (TextRange.range s.currentPos e) (cleanupResult vals)) s'
      | .res r s' => .res r s'
      | .fuelOut => .fuelOut
      | _ => .panic := rfl

lemma parseStep_orP (n : Nat) (ps : List PParser) (s : RScan) :
    parseStep (n + 1) (.run (.orP ps)) s = parseStep n (.orL ps) s := rfl

lemma parseStep_many (n : Nat) (inner : PParser) (combine : Bool) (s : RScan) :
    parseStep (n + 1) (.run (.many inner combine)) s =
      match parseStep n (.manyL inner [] 0) s with
      | .manyDone vals _ s' =>
        .res (.success (TextRange.range s.currentPos s'.currentPos)
          (if combine then cleanupResult vals else .list vals)) s'
      | .fuelOut => .fuelOut
      | _ => .panic := rfl

lemma parseStep_maybe (n : Nat) (inner : PParser) (s : RScan) :
    parseStep (n + 1) (.run (.maybe inner)) s =
      match parseStep n (.run inner) s.startSnapshot with
      | .res r s2 =>
        if r.matched then
          match s2.popSnapshot with
          | some s3 => .res r s3
          | none => .panic
        else
          match s2.rewindSnapshot with
          | some s3 => .res (.success (TextRange.single s3.currentPos) (.str "")) s3
          | none => .panic
      | .fuelOut => .fuelOut
      | _ => .panic := rfl

lemma parseStep_mapP (n : Nat) (entries : List (String × PParser))
    (fn : List (String × Value) → Value) (s : RScan) :
    parseStep (n + 1) (.run (.mapP entries fn)) s =
      match parseStep n (.mapL entries []) s with
      | .mapDone acc s' =>
        .res (.success (TextRange.range s.currentPos s'.currentPos) (fn acc)) s'
      | .res r s' => .res r s'
      | .fuelOut => .fuelOut
      | _ => .panic := rfl

lemma parseStep_parseWith (n : Nat) (inner : PParser) (fn : Value → Value) (s : RScan) :
    parseStep (n + 1) (.run (.parseWith inner fn)) s =
      match parseStep n (.run inner) s with
      | .res r s' =>
        if r.matched then .res (.success r.range (fn r.resultValue)) s'
        else .res r s'
      | .fuelOut => .fuelOut
      | _ => .panic := rfl

lemma parseStep_lazy (n : Nat) (fn : Unit → PParser) (s : RScan) :
    parseStep (n + 1) (.run (.lazy fn)) s = parseStep n (.run (fn ())) s := rfl

lemma parseStep_ignore (n : Nat) (inner : PParser) (s : RScan) :
    parseStep (n + 1) (.run (.ignore inner)) s =
      match parseStep n (.run inner) s with
      | .res r s' =>
        if r.matched then .res (.success r.range (.str "")) s'
        else .res r s'
      | .fuelOut => .fuelOut
      | _ => .panic := rfl

lemma parseStep_seqL_nil (n : Nat) (e : TextPos) (vals : List Value) (s : RScan) :
    parseStep (n + 1) (.seqL [] e vals) s = .seqDone e vals s := rfl

lemma parseStep_seqL_cons (n : Nat) (p : PParser) (rest : List PParser) (e : TextPos)
    (vals : List Value) (s : RScan) :
    parseStep (n + 1) (.seqL (p :: rest) e vals) s =
      match parseStep n (.run p) s with
      | .res r s' =>
        if r.matched then
          parseStep n (.seqL rest r.range.endPos (vals ++ [r.resultValue])) s'
        else .res r s'
      | .fuelOut => .fuelOut
      | _ => .panic := rfl

lemma parseStep_orL_nil (n : Nat) (s : RScan) :
    parseStep (n + 1) (.orL []) s =
      .res (.failure (TextRange.single s.currentPos) "no parser matched") s := rfl

lemma parseStep_orL_cons (n : Nat) (p : PParser) (rest : List PParser) (s : RScan) :
    parseStep (n + 1) (.orL (p :: rest)) s =
      match parseStep n (.run p) s.startSnapshot with
      | .res r s2 =>
        if r.matched then
          match s2.popSnapshot with
          | some s3 => .res r s3
          | none => .panic
        else
          match s2.rewindSnapshot with
          | some s3 => parseStep n (.orL rest) s3
          | none => .panic
      | .fuelOut => .fuelOut
      | _ => .panic := rfl

lemma parseStep_manyL (n : Nat) (inner : PParser) (vals : List Value) (att : Nat)
    (s : RScan) :
    parseStep (n + 1) (.manyL inner vals att) s =
      match parseStep n (.run inner) s.startSnapshot with
      | .res r s2 =>
        if r.matched then
          match s2.popSnapshot with
          | some s3 => parseStep n (.manyL inner (vals ++ [r.resultValue]) (att + 1)) s3
          | none => .panic
        else
          match s2.rewindSnapshot with
          | some s3 => .manyDone vals (att + 1) s3
          | none => .panic
      | .fuelOut => .fuelOut
      | _ => .panic := rfl

lemma parseStep_mapL_nil (n : Nat) (acc : List (String × Value)) (s : RScan) :
    parseStep (n + 1) (.mapL [] acc) s = .mapDone acc s := rfl

lemma parseStep_mapL_cons (n : Nat) (name : String) (p : PParser)
    (rest : List (String × PParser)) (acc : List (String × Value)) (s : RScan) :
    parseStep (n + 1) (.mapL ((name, p) :: rest) acc) s =
      match parseStep n (.run p) s with
      | .res r s' =>
        if r.matched then
          parseStep n (.mapL rest (if name = "" then acc else assocSet acc name r.resultValue)) s'
        else .res r s'
      | .fuelOut => .fuelOut
      | _ => .panic := rfl

/-! ### Panic freedom and stack balance of the combinator engine -/

lemma ite_out_res {b : Prop} [Decidable b] (r1 r2 : PResult) (s : RScan) :
    (if b then Out.res r1 s else Out.res r2 s) = Out.res (if b then r1 else r2) s := by
  by_cases h : b <;> simp [h]

lemma popSnapshot_facts {s : RScan} {f : Snapshot} {rest : List Snapshot}
    (h : s.lastSnap = f :: rest) (hsi : BTS.SrcInv s.source) :
    ∃ s', s.popSnapshot = some s' ∧ s'.lastSnap = rest ∧ BTS.SrcInv s'.source ∧
      s'.currentPos = s.currentPos ∧ s'.isReplaying = s.isReplaying ∧
      s'.replayPos = s.replayPos ∧ (rest ≠ [] → s'.source = s.source) := by
  cases rest with
  | nil =>
    refine ⟨⟨s.source.dropBuffer, s.currentPos, [], s.isReplaying, s.replayPos⟩,
      popSnapshot_cons_nil h, rfl, dropBuffer_srcInv hsi, rfl, rfl, rfl, by simp⟩
  | cons g rest' =>
    refine ⟨⟨s.source, s.currentPos, g :: rest', s.isReplaying, s.replayPos⟩,
      popSnapshot_cons_cons h, rfl, hsi, rfl, rfl, rfl, fun _ => rfl⟩

lemma tokGo_sound : ∀ (t : List Char) (seen : String) (start : TextPos) (s : RScan),
    BTS.SrcInv s.source →
    tokGo t seen start s ≠ none ∧
      ∀ r s', tokGo t seen start s = some (r, s') →
        BTS.SrcInv s'.source ∧ s'.lastSnap = s.lastSnap := by
  intro t
  induction t with
  | nil =>
    intro seen start s hsi
    refine ⟨by simp [tokGo], ?_⟩
    intro r s' h
    simp only [tokGo, Option.some.injEq, Prod.mk.injEq] at h
    rw [← h.2]
    exact ⟨hsi, rfl⟩
  | cons c cs ih =>
    intro seen start s hsi
    obtain ⟨hnp, hok, heof⟩ := read_srcInv hsi
    cases hrd : s.read with
    | ok r0 s0 =>
      obtain ⟨hsi0, hstk0⟩ := hok r0 s0 hrd
      by_cases hrc : r0 = c
      · have hred : tokGo (c :: cs) seen start s = tokGo cs (seen.push r0) start s0 := by
          simp [tokGo, hrd, hrc]
        rw [hred]
        obtain ⟨h1, h2⟩ := ih (seen.push r0) start s0 hsi0
        refine ⟨h1, ?_⟩
        intro r s' h
        obtain ⟨h3, h4⟩ := h2 r s' h
        exact ⟨h3, h4.trans hstk0⟩
      · have hred : tokGo (c :: cs) seen start s =
            some (.failure (TextRange.single s0.currentPos)
              ("expected token, got " ++ (seen.push r0)), s0) := by
          simp [tokGo, hrd, hrc]
        rw [hred]
        refine ⟨by simp, ?_⟩
        intro r s' h
        simp only [Option.some.injEq, Prod.mk.injEq] at h
        rw [← h.2]
        exact ⟨hsi0, hstk0⟩
    | eof s0 =>
      obtain ⟨hsrc0, hstk0⟩ := heof s0 hrd
      have hred : tokGo (c :: cs) seen start s =
          some (.failure (TextRange.single s0.currentPos) "expected token, got error", s0) := by
        simp [tokGo, hrd]
      rw [hred]
      refine ⟨by simp, ?_⟩
      intro r s' h
      simp only [Option.some.injEq, Prod.mk.injEq] at h
      rw [← h.2]
      exact ⟨hsrc0 ▸ hsi, hstk0⟩
    | panic => exact absurd hrd hnp

lemma step_sound : ∀ (n : Nat) (req : Req) (s : RScan), BTS.SrcInv s.source →
    ReqShape req (parseStep n req s) ∧ parseStep n req s ≠ .panic ∧
      ∀ s', (parseStep n req s).scanOf = some s' →
        BTS.SrcInv s'.source ∧ s'.lastSnap = s.lastSnap := by
  intro n
  induction n with
  | zero =>
    intro req s hsi
    refine ⟨?_, by simp [parseStep_zero], ?_⟩
    · rw [parseStep_zero]
      cases req <;> trivial
    · intro s' h
      rw [parseStep_zero] at h
      simp [Out.scanOf] at h
  | succ n ih =>
    intro req s hsi
    cases req with
    | run p =>
      cases p with
      | eofP =>
        obtain ⟨hnp, hok, heof⟩ := read_srcInv hsi
        have hred := parseStep_eofP n s
        cases hrd : s.read with
        | ok c s0 =>
          rw [hrd] at hred
          dsimp only at hred
          rw [hred]
          obtain ⟨h1, h2⟩ := hok c s0 hrd
          refine ⟨trivial, by simp, ?_⟩
          intro s' h
          simp only [Out.scanOf, Option.some.injEq] at h
          rw [← h]
          exact ⟨h1, h2⟩
        | eof s0 =>
          rw [hrd] at hred
          dsimp only at hred
          rw [hred]
          obtain ⟨h1, h2⟩ := heof s0 hrd
          refine ⟨trivial, by simp, ?_⟩
          intro s' h
          simp only [Out.scanOf, Option.some.injEq] at h
          rw [← h]
          exact ⟨h1 ▸ hsi, h2⟩
        | panic => exact absurd hrd hnp
      | char mn mx =>
        obtain ⟨hnp, hok, heof⟩ := read_srcInv hsi
        have hred := parseStep_char n mn mx s
        cases hrd : s.read with
        | ok c s0 =>
          rw [hrd] at hred
          dsimp only at hred
          rw [ite_out_res] at hred
          rw [hred]
          obtain ⟨h1, h2⟩ := hok c s0 hrd
          refine ⟨trivial, by simp, ?_⟩
          intro s' h
          simp only [Out.scanOf, Option.some.injEq] at h
          rw [← h]
          exact ⟨h1, h2⟩
        | eof s0 =>
          rw [hrd] at hred
          dsimp only at hred
          rw [hred]
          obtain ⟨h1, h2⟩ := heof s0 hrd
          refine ⟨trivial, by simp, ?_⟩
          intro s' h
          simp only [Out.scanOf, Option.some.injEq] at h
          rw [← h]
          exact ⟨h1 ▸ hsi, h2⟩
        | panic => exact absurd hrd hnp
      | charSet allowed invert =>
        obtain ⟨hnp, hok, heof⟩ := read_srcInv hsi
        have hred := parseStep_charSet n allowed invert s
        cases hrd : s.read with
        | ok c s0 =>
          rw [hrd] at hred
          dsimp only at hred
          rw [ite_out_res] at hred
          rw [hred]
          obtain ⟨h1, h2⟩ := hok c s0 hrd
          refine ⟨trivial, by simp, ?_⟩
          intro s' h
          simp only [Out.scanOf, Option.some.injEq] at h
          rw [← h]
          exact ⟨h1, h2⟩
        | eof s0 =>
          rw [hrd] at hred
          dsimp only at hred
          rw [hred]
          obtain ⟨h1, h2⟩ := heof s0 hrd
          refine ⟨trivial, by simp, ?_⟩
          intro s' h
          simp only [Out.scanOf, Option.some.injEq] at h
          rw [← h]
          exact ⟨h1 ▸ hsi, h2⟩
        | panic => exact absurd hrd hnp
      | token t =>
        obtain ⟨h1, h2⟩ := tokGo_sound t.data "" s.currentPos s hsi
        have hred := parseStep_token n t s
        cases htk : tokGo t.data "" s.currentPos s with
        | none => exact absurd htk h1
        | some pr =>
          obtain ⟨r, s0⟩ := pr
          rw [htk] at hred
          dsimp only at hred
          rw [hred]
          obtain ⟨h3, h4⟩ := h2 r s0 htk
          refine ⟨trivial, by simp, ?_⟩
          intro s' h
          simp only [Out.scanOf, Option.some.injEq] at h
          rw [← h]
          exact ⟨h3, h4⟩
      | seq ps =>
        obtain ⟨iS, iN, iP⟩ := ih (.seqL ps ⟨0, 0⟩ []) s hsi
        have hred := parseStep_seq n ps s
        cases hout : parseStep n (.seqL ps ⟨0, 0⟩ []) s with
        | seqDone e vals s0 =>
          rw [hout] at hred
          dsimp only at hred
          rw [hred]
          obtain ⟨h1, h2⟩ := iP s0 (by rw [hout]; rfl)
          refine ⟨trivial, by simp, ?_⟩
          intro s' h
          simp only [Out.scanOf, Option.some.injEq] at h
          rw [← h]
          exact ⟨h1, h2⟩
        | res r s0 =>
          rw [hout] at hred
          dsimp only at hred
          rw [hred]
          obtain ⟨h1, h2⟩ := iP s0 (by rw [hout]; rfl)
          refine ⟨trivial, by simp, ?_⟩
          intro s' h
          simp only [Out.scanOf, Option.some.injEq] at h
          rw [← h]
          exact ⟨h1, h2⟩
        | panic => exact absurd hout iN
        | fuelOut =>
          rw [hout] at hred
          dsimp only at hred
          rw [hred]
          refine ⟨trivial, by simp, ?_⟩
          intro s' h
          simp [Out.scanOf] at h
        | manyDone vals att s0 =>
          rw [hout] at iS
          exact iS.elim
        | mapDone acc s0 =>
          rw [hout] at iS
          exact iS.elim
      | orP ps =>
        obtain ⟨iS, iN, iP⟩ := ih (.orL ps) s hsi
        have hred := parseStep_orP n ps s
        rw [hred]
        cases hout : parseStep n (.orL ps) s with
        | res r s0 =>
          rw [hout] at iP
          exact ⟨trivial, by simp, iP⟩
        | panic => exact absurd hout iN
        | fuelOut =>
          refine ⟨trivial, by simp, ?_⟩
          intro s' h
          simp [Out.scanOf] at h
        | seqDone e vals s0 => rw [hout] at iS; exact iS.elim
        | manyDone vals att s0 => rw [hout] at iS; exact iS.elim
        | mapDone acc s0 => rw [hout] at iS; exact iS.elim
      | many inner combine =>
        obtain ⟨iS, iN, iP⟩ := ih (.manyL inner [] 0) s hsi
        have hred := parseStep_many n inner combine s
        cases hout : parseStep n (.manyL inner [] 0) s with
        | manyDone vals att s0 =>
          rw [hout] at hred
          dsimp only at hred
          rw [hred]
          obtain ⟨h1, h2⟩ := iP s0 (by rw [hout]; rfl)
          refine ⟨trivial, by simp, ?_⟩
          intro s' h
          simp only [Out.scanOf, Option.some.injEq] at h
          rw [← h]
          exact ⟨h1, h2⟩
        | panic => exact absurd hout iN
        | fuelOut =>
          rw [hout] at hred
          dsimp only at hred
          rw [hred]
          refine ⟨trivial, by simp, ?_⟩
          intro s' h
          simp [Out.scanOf] at h
        | res r s0 => rw [hout] at iS; exact iS.elim
        | seqDone e vals s0 => rw [hout] at iS; exact iS.elim
        | mapDone acc s0 => rw [hout] at iS; exact iS.elim
      | maybe inner =>
        obtain ⟨hsiS, hstkS⟩ := startSnapshot_srcInv hsi
        obtain ⟨iS, iN, iP⟩ := ih (.run inner) s.startSnapshot hsiS
        have hred := parseStep_maybe n inner s
        cases hout : parseStep n (.run inner) s.startSnapshot with
        | res r s2 =>
          obtain ⟨hsi2, hstk2⟩ := iP s2 (by rw [hout]; rfl)
          have hstk2' : s2.lastSnap = ⟨snapOff s, s.currentPos⟩ :: s.lastSnap :=
            hstk2.trans hstkS
          rw [hout] at hred
          dsimp only at hred
          by_cases hm : r.matched = true
          · obtain ⟨s3, hpop, hstk3, hsi3, -, -, -, -⟩ := popSnapshot_facts hstk2' hsi2
            rw [if_pos hm, hpop] at hred
            dsimp only at hred
            rw [hred]
            refine ⟨trivial, by simp, ?_⟩
            intro s' h
            simp only [Out.scanOf, Option.some.injEq] at h
            rw [← h]
            exact ⟨hsi3, hstk3⟩
          · rw [if_neg hm, rewindSnapshot_cons hstk2'] at hred
            dsimp only at hred
            rw [hred]
            refine ⟨trivial, by simp, ?_⟩
            intro s' h
            simp only [Out.scanOf, Option.some.injEq] at h
            rw [← h]
            exact ⟨hsi2, rfl⟩
        | panic => exact absurd hout iN
        | fuelOut =>
          rw [hout] at hred
          dsimp only at hred
          rw [hred]
          refine ⟨trivial, by simp, ?_⟩
          intro s' h
          simp [Out.scanOf] at h
        | seqDone e vals s0 => rw [hout] at iS; exact iS.elim
        | manyDone vals att s0 => rw [hout] at iS; exact iS.elim
        | mapDone acc s0 => rw [hout] at iS; exact iS.elim
      | mapP entries fn =>
        obtain ⟨iS, iN, iP⟩ := ih (.mapL entries []) s hsi
        have hred := parseStep_mapP n entries fn s
        cases hout : parseStep n (.mapL entries []) s with
        | mapDone acc s0 =>
          rw [hout] at hred
          dsimp only at hred
          rw [hred]
          obtain ⟨h1, h2⟩ := iP s0 (by rw [hout]; rfl)
          refine ⟨trivial, by simp, ?_⟩
          intro s' h
          simp only [Out.scanOf, Option.some.injEq] at h
          rw [← h]
          exact ⟨h1, h2⟩
        | res r s0 =>
          rw [hout] at hred
          dsimp only at hred
          rw [hred]
          obtain ⟨h1, h2⟩ := iP s0 (by rw [hout]; rfl)
          refine ⟨trivial, by simp, ?_⟩
          intro s' h
          simp only [Out.scanOf, Option.some.injEq] at h
          rw [← h]
          exact ⟨h1, h2⟩
        | panic => exact absurd hout iN
        | fuelOut =>
          rw [hout] at hred
          dsimp only at hred
          rw [hred]
          refine ⟨trivial, by simp, ?_⟩
          intro s' h
          simp [Out.scanOf] at h
        | seqDone e vals s0 => rw [hout] at iS; exact iS.elim
        | manyDone vals att s0 => rw [hout] at iS; exact iS.elim
      | parseWith inner fn =>
        obtain ⟨iS, iN, iP⟩ := ih (.run inner) s hsi
        have hred := parseStep_parseWith n inner fn s
        cases hout : parseStep n (.run inner) s with
        | res r s0 =>
          rw [hout] at hred
          dsimp only at hred
          obtain ⟨h1, h2⟩ := iP s0 (by rw [hout]; rfl)
          by_cases hm : r.matched = true
          · rw [if_pos hm] at hred
            rw [hred]
            refine ⟨trivial, by simp, ?_⟩
            intro s' h
            simp only [Out.scanOf, Option.some.injEq] at h
            rw [← h]
            exact ⟨h1, h2⟩
          · rw [if_neg hm] at hred
            rw [hred]
            refine ⟨trivial, by simp, ?_⟩
            intro s' h
            simp only [Out.scanOf, Option.some.injEq] at h
            rw [← h]
            exact ⟨h1, h2⟩
        | panic => exact absurd hout iN
        | fuelOut =>
          rw [hout] at hred
          dsimp only at hred
          rw [hred]
          refine ⟨trivial, by simp, ?_⟩
          intro s' h
          simp [Out.scanOf] at h
        | seqDone e vals s0 => rw [hout] at iS; exact iS.elim
        | manyDone vals att s0 => rw [hout] at iS; exact iS.elim
        | mapDone acc s0 => rw [hout] at iS; exact iS.elim
      | lazy fn =>
        obtain ⟨iS, iN, iP⟩ := ih (.run (fn ())) s hsi
        have hred := parseStep_lazy n fn s
        rw [hred]
        exact ⟨iS, iN, iP⟩
      | ignore inner =>
        obtain ⟨iS, iN, iP⟩ := ih (.run inner) s hsi
        have hred := parseStep_ignore n inner s
        cases hout : parseStep n (.run inner) s with
        | res r s0 =>
          rw [hout] at hred
          dsimp only at hred
          obtain ⟨h1, h2⟩ := iP s0 (by rw [hout]; rfl)
          by_cases hm : r.matched = true
          · rw [if_pos hm] at hred
            rw [hred]
            refine ⟨trivial, by simp, ?_⟩
            intro s' h
            simp only [Out.scanOf, Option.some.injEq] at h
            rw [← h]
            exact ⟨h1, h2⟩
          · rw [if_neg hm] at hred
            rw [hred]
            refine ⟨trivial, by simp, ?_⟩
            intro s' h
            simp only [Out.scanOf, Option.some.injEq] at h
            rw [← h]
            exact ⟨h1, h2⟩
        | panic => exact absurd hout iN
        | fuelOut =>
          rw [hout] at hred
          dsimp only at hred
          rw [hred]
          refine ⟨trivial, by simp, ?_⟩
          intro s' h
          simp [Out.scanOf] at h
        | seqDone e vals s0 => rw [hout] at iS; exact iS.elim
        | manyDone vals att s0 => rw [hout] at iS; exact iS.elim
        | mapDone acc s0 => rw [hout] at iS; exact iS.elim
    | seqL ps e vals =>
      cases ps with
      | nil =>
        rw [parseStep_seqL_nil]
        refine ⟨trivial, by simp, ?_⟩
        intro s' h
        simp only [Out.scanOf, Option.some.injEq] at h
        rw [← h]
        exact ⟨hsi, rfl⟩
      | cons p rest =>
        obtain ⟨iS, iN, iP⟩ := ih (.run p) s hsi
        have hred := parseStep_seqL_cons n p rest e vals s
        cases hout : parseStep n (.run p) s with
        | res r s0 =>
          rw [hout] at hred
          dsimp only at hred
          obtain ⟨h1, h2⟩ := iP s0 (by rw [hout]; rfl)
          by_cases hm : r.matched = true
          · rw [if_pos hm] at hred
            rw [hred]
            obtain ⟨jS, jN, jP⟩ :=
              ih (.seqL rest r.range.endPos (vals ++ [r.resultValue])) s0 h1
            refine ⟨jS, jN, ?_⟩
            intro s' h
            obtain ⟨h3, h4⟩ := jP s' h
            exact ⟨h3, h4.trans h2⟩
          · rw [if_neg hm] at hred
            rw [hred]
            refine ⟨trivial, by simp, ?_⟩
            intro s' h
            simp only [Out.scanOf, Option.some.injEq] at h
            rw [← h]
            exact ⟨h1, h2⟩
        | panic => exact absurd hout iN
        | fuelOut =>
          rw [hout] at hred
          dsimp only at hred
          rw [hred]
          refine ⟨trivial, by simp, ?_⟩
          intro s' h
          simp [Out.scanOf] at h
        | seqDone e' vals' s0 => rw [hout] at iS; exact iS.elim
        | manyDone vals' att s0 => rw [hout] at iS; exact iS.elim
        | mapDone acc s0 => rw [hout] at iS; exact iS.elim
    | orL ps =>
      cases ps with
      | nil =>
        rw [parseStep_orL_nil]
        refine ⟨trivial, by simp, ?_⟩
        intro s' h
        simp only [Out.scanOf, Option.some.injEq] at h
        rw [← h]
        exact ⟨hsi, rfl⟩
      | cons p rest =>
        obtain ⟨hsiS, hstkS⟩ := startSnapshot_srcInv hsi
        obtain ⟨iS, iN, iP⟩ := ih (.run p) s.startSnapshot hsiS
        have hred := parseStep_orL_cons n p rest s
        cases hout : parseStep n (.run p) s.startSnapshot with
        | res r s2 =>
          obtain ⟨hsi2, hstk2⟩ := iP s2 (by rw [hout]; rfl)
          have hstk2' : s2.lastSnap = ⟨snapOff s, s.currentPos⟩ :: s.lastSnap :=
            hstk2.trans hstkS
          rw [hout] at hred
          dsimp only at hred
          by_cases hm : r.matched = true
          · obtain ⟨s3, hpop, hstk3, hsi3, -, -, -, -⟩ := popSnapshot_facts hstk2' hsi2
            rw [if_pos hm, hpop] at hred
            dsimp only at hred
            rw [hred]
            refine ⟨trivial, by simp, ?_⟩
            intro s' h
            simp only [Out.scanOf, Option.some.injEq] at h
            rw [← h]
            exact ⟨hsi3, hstk3⟩
          · rw [if_neg hm, rewindSnapshot_cons hstk2'] at hred
            dsimp only at hred
            rw [hred]
            obtain ⟨jS, jN, jP⟩ := ih (.orL rest)
              ⟨s2.source, (⟨snapOff s, s.currentPos⟩ : Snapshot).position, s.lastSnap,
                true, (⟨snapOff s, s.currentPos⟩ : Snapshot).buffOffset⟩ hsi2
            refine ⟨jS, jN, ?_⟩
            intro s' h
            obtain ⟨h3, h4⟩ := jP s' h
            exact ⟨h3, h4⟩
        | panic => exact absurd hout iN
        | fuelOut =>
          rw [hout] at hred
          dsimp only at hred
          rw [hred]
          refine ⟨trivial, by simp, ?_⟩
          intro s' h
          simp [Out.scanOf] at h
        | seqDone e vals s0 => rw [hout] at iS; exact iS.elim
        | manyDone vals att s0 => rw [hout] at iS; exact iS.elim
        | mapDone acc s0 => rw [hout] at iS; exact iS.elim
    | manyL inner vals att =>
      obtain ⟨hsiS, hstkS⟩ := startSnapshot_srcInv hsi
      obtain ⟨iS, iN, iP⟩ := ih (.run inner) s.startSnapshot hsiS
      have hred := parseStep_manyL n inner vals att s
      cases hout : parseStep n (.run inner) s.startSnapshot with
      | res r s2 =>
        obtain ⟨hsi2, hstk2⟩ := iP s2 (by rw [hout]; rfl)
        have hstk2' : s2.lastSnap = ⟨snapOff s, s.currentPos⟩ :: s.lastSnap :=
          hstk2.trans hstkS
        rw [hout] at hred
        dsimp only at hred
        by_cases hm : r.matched = true
        · obtain ⟨s3, hpop, hstk3, hsi3, -, -, -, -⟩ := popSnapshot_facts hstk2' hsi2
          rw [if_pos hm, hpop] at hred
          dsimp only at hred
          rw [hred]
          obtain ⟨jS, jN, jP⟩ :=
            ih (.manyL inner (vals ++ [r.resultValue]) (att + 1)) s3 hsi3
          refine ⟨jS, jN, ?_⟩
          intro s' h
          obtain ⟨h3, h4⟩ := jP s' h
          exact ⟨h3, h4.trans hstk3⟩
        · rw [if_neg hm, rewindSnapshot_cons hstk2'] at hred
          dsimp only at hred
          rw [hred]
          refine ⟨trivial, by simp, ?_⟩
          intro s' h
          simp only [Out.scanOf, Option.some.injEq] at h
          rw [← h]
          exact ⟨hsi2, rfl⟩
      | panic => exact absurd hout iN
      | fuelOut =>
        rw [hout] at hred
        dsimp only at hred
        rw [hred]
        refine ⟨trivial, by simp, ?_⟩
        intro s' h
        simp [Out.scanOf] at h
      | seqDone e vals' s0 => rw [hout] at iS; exact iS.elim
      | manyDone vals' att' s0 => rw [hout] at iS; exact iS.elim
      | mapDone acc s0 => rw [hout] at iS; exact iS.elim
    | mapL entries acc =>
      cases entries with
      | nil =>
        rw [parseStep_mapL_nil]
        refine ⟨trivial, by simp, ?_⟩
        intro s' h
        simp only [Out.scanOf, Option.some.injEq] at h
        rw [← h]
        exact ⟨hsi, rfl⟩
      | cons e rest =>
        obtain ⟨name, p⟩ := e
        obtain ⟨iS, iN, iP⟩ := ih (.run p) s hsi
        have hred := parseStep_mapL_cons n name p rest acc s
        cases hout : parseStep n (.run p) s with
        | res r s0 =>
          rw [hout] at hred
          dsimp only at hred
          obtain ⟨h1, h2⟩ := iP s0 (by rw [hout]; rfl)
          by_cases hm : r.matched = true
          · rw [if_pos hm] at hred
            rw [hred]
            obtain ⟨jS, jN, jP⟩ := ih
              (.mapL rest (if name = "" then acc else assocSet acc name r.resultValue)) s0 h1
            refine ⟨jS, jN, ?_⟩
            intro s' h
            obtain ⟨h3, h4⟩ := jP s' h
            exact ⟨h3, h4.trans h2⟩
          · rw [if_neg hm] at hred
            rw [hred]
            refine ⟨trivial, by simp, ?_⟩
            intro s' h
            simp only [Out.scanOf, Option.some.injEq] at h
            rw [← h]
            exact ⟨h1, h2⟩
        | panic => exact absurd hout iN
        | fuelOut =>
          rw [hout] at hred
          dsimp only at hred
          rw [hred]
          refine ⟨trivial, by simp, ?_⟩
          intro s' h
          simp [Out.scanOf] at h
        | seqDone e' vals s0 => rw [hout] at iS; exact iS.elim
        | manyDone vals att s0 => rw [hout] at iS; exact iS.elim
        | mapDone acc' s0 => rw [hout] at iS; exact iS.elim

lemma read_eof_state {s s' : RScan} (h : s.read = .eof s') :
    s'.currentPos = s.currentPos ∧ s'.source = s.source ∧ s'.lastSnap = s.lastSnap ∧
      s'.replayPos = s.replayPos ∧ s'.isReplaying = false := by
  obtain ⟨src, cp, stk, rep, rp⟩ := s
  have hlive : ∀ (rep' : Bool),
      RScan.liveRead ⟨src, cp, stk, rep', rp⟩ = .eof s' →
      s'.currentPos = cp ∧ s'.source = src ∧ s'.lastSnap = stk ∧ s'.replayPos = rp ∧
        s'.isReplaying = rep' := by
    intro rep' hl
    cases hrd : src.read with
    | some p =>
      obtain ⟨c, src0⟩ := p
      simp [RScan.liveRead, hrd] at hl
    | none =>
      simp only [RScan.liveRead, hrd] at hl
      injection hl with hl
      rw [← hl]
      exact ⟨rfl, rfl, rfl, rfl, rfl⟩
  cases rep with
  | false =>
    have hunfold : (⟨src, cp, stk, false, rp⟩ : RScan).read =
        RScan.liveRead ⟨src, cp, stk, false, rp⟩ := by
      simp [RScan.read]
    rw [hunfold] at h
    exact hlive false h
  | true =>
    by_cases hlt : rp < src.bufSize
    · cases hrb : src.readBuffer rp with
      | some c =>
        have : (⟨src, cp, stk, true, rp⟩ : RScan).read =
            .ok c ⟨src, cp.advance c, stk, true, rp + 1⟩ := by
          simp [RScan.read, hlt, hrb]
        rw [this] at h
        exact absurd h (by simp)
      | none =>
        have : (⟨src, cp, stk, true, rp⟩ : RScan).read = .panic := by
          simp [RScan.read, hlt, hrb]
        rw [this] at h
        exact absurd h (by simp)
    · have hunfold : (⟨src, cp, stk, true, rp⟩ : RScan).read =
          RScan.liveRead ⟨src, cp, stk, false, rp⟩ := by
        simp [RScan.read, hlt]
      rw [hunfold] at h
      exact hlive false h

lemma tokGo_success_start : ∀ (t : List Char) (seen : String) (start : TextPos)
    (s : RScan) (r : PResult) (s' : RScan),
    tokGo t seen start s = some (r, s') → r.matched = true →
    r.range.start = start := by
  intro t
  induction t with
  | nil =>
    intro seen start s r s' h hm
    simp only [tokGo, Option.some.injEq, Prod.mk.injEq] at h
    rw [← h.1]
    rfl
  | cons c cs ih =>
    intro seen start s r s' h hm
    cases hrd : s.read with
    | ok r0 s0 =>
      by_cases hrc : r0 = c
      · have hred : tokGo (c :: cs) seen start s = tokGo cs (seen.push r0) start s0 := by
          simp [tokGo, hrd, hrc]
        rw [hred] at h
        exact ih _ start s0 r s' h hm
      · have hred : tokGo (c :: cs) seen start s =
            some (.failure (TextRange.single s0.currentPos)
              ("expected token, got " ++ (seen.push r0)), s0) := by
          simp [tokGo, hrd, hrc]
        rw [hred] at h
        simp only [Option.some.injEq, Prod.mk.injEq] at h
        rw [← h.1] at hm
        exact absurd hm (by simp [PResult.matched])
    | eof s0 =>
      have hred : tokGo (c :: cs) seen start s =
          some (.failure (TextRange.single s0.currentPos) "expected token, got error", s0) := by
        simp [tokGo, hrd]
      rw [hred] at h
      simp only [Option.some.injEq, Prod.mk.injEq] at h
      rw [← h.1] at hm
      exact absurd hm (by simp [PResult.matched])
    | panic =>
      have hred : tokGo (c :: cs) seen start s = none := by
        simp [tokGo, hrd]
      rw [hred] at h
      exact absurd h (by simp)

lemma step_success_start : ∀ (n : Nat) (req : Req) (s : RScan), BTS.SrcInv s.source →
    ∀ r s', parseStep n req s = .res r s' →
      (∀ p, req = .run p → r.matched = true → r.range.start = s.currentPos) ∧
      (∀ ps e vals, req = .seqL ps e vals → r.matched = false) ∧
      (∀ ps, req = .orL ps → r.matched = true → r.range.start = s.currentPos) ∧
      (∀ entries acc, req = .mapL entries acc → r.matched = false) := by
  intro n
  induction n with
  | zero =>
    intro req s hsi r s' h
    rw [parseStep_zero] at h
    exact absurd h (by simp)
  | succ n ih =>
    intro req s hsi r s' h
    cases req with
    | run p =>
      refine ⟨?_, by intro ps e vals hq; exact absurd hq (by simp),
        by intro ps hq; exact absurd hq (by simp),
        by intro entries acc hq; exact absurd hq (by simp)⟩
      intro p' hp hm
      injection hp with hp
      subst hp
      cases p with
      | eofP =>
        rw [parseStep_eofP] at h
        cases hrd : s.read with
        | ok c s0 =>
          rw [hrd] at h
          dsimp only at h
          injection h with h1 h2
          rw [← h1] at hm
          exact absurd hm (by simp [PResult.matched])
        | eof s0 =>
          rw [hrd] at h
          dsimp only at h
          injection h with h1 h2
          rw [← h1]
          obtain ⟨hcp, -, -, -, -⟩ := read_eof_state hrd
          simp [PResult.range, TextRange.single, hcp]
        | panic =>
          rw [hrd] at h
          exact absurd h (by simp)
      | char mn mx =>
        rw [parseStep_char] at h
        cases hrd : s.read with
        | ok c s0 =>
          rw [hrd] at h
          dsimp only at h
          by_cases hc : c < mn ∨ mx < c
          · rw [if_pos hc] at h
            injection h with h1 h2
            rw [← h1] at hm
            exact absurd hm (by simp [PResult.matched])
          · rw [if_neg hc] at h
            injection h with h1 h2
            rw [← h1]
            rfl
        | eof s0 =>
          rw [hrd] at h
          dsimp only at h
          injection h with h1 h2
          rw [← h1] at hm
          exact absurd hm (by simp [PResult.matched])
        | panic =>
          rw [hrd] at h
          exact absurd h (by simp)
      | charSet allowed invert =>
        rw [parseStep_charSet] at h
        cases hrd : s.read with
        | ok c s0 =>
          rw [hrd] at h
          dsimp only at h
          by_cases hc : allowed.contains c = invert
          · rw [if_pos hc] at h
            injection h with h1 h2
            rw [← h1] at hm
            exact absurd hm (by simp [PResult.matched])
          · rw [if_neg hc] at h
            injection h with h1 h2
            rw [← h1]
            rfl
        | eof s0 =>
          rw [hrd] at h
          dsimp only at h
          injection h with h1 h2
          rw [← h1] at hm
          exact absurd hm (by simp [PResult.matched])
        | panic =>
          rw [hrd] at h
          exact absurd h (by simp)
      | token t =>
        rw [parseStep_token] at h
        cases htk : tokGo t.data "" s.currentPos s with
        | none =>
          rw [htk] at h
          exact absurd h (by simp)
        | some pr =>
          obtain ⟨r0, s0⟩ := pr
          rw [htk] at h
          dsimp only at h
          injection h with h1 h2
          rw [← h1]
          rw [← h1] at hm
          exact tokGo_success_start t.data "" s.currentPos s r0 s0 htk hm
      | seq ps =>
        rw [parseStep_seq] at h
        cases hout : parseStep n (.seqL ps ⟨0, 0⟩ []) s with
        | seqDone e vals s0 =>
          rw [hout] at h
          dsimp only at h
          injection h with h1 h2
          rw [← h1]
          rfl
        | res r0 s0 =>
          rw [hout] at h
          dsimp only at h
          injection h with h1 h2
          subst h1
          have := (ih _ s hsi r0 s0 hout).2.1 ps ⟨0, 0⟩ [] rfl
          rw [hm] at this
          exact absurd this (by simp)
        | panic => rw [hout] at h; exact absurd h (by simp)
        | fuelOut => rw [hout] at h; exact absurd h (by simp)
        | manyDone vals att s0 => rw [hout] at h; exact absurd h (by simp)
        | mapDone acc s0 => rw [hout] at h; exact absurd h (by simp)
      | orP ps =>
        rw [parseStep_orP] at h
        exact (ih _ s hsi r s' h).2.2.1 ps rfl hm
      | many inner combine =>
        rw [parseStep_many] at h
        cases hout : parseStep n (.manyL inner [] 0) s with
        | manyDone vals att s0 =>
          rw [hout] at h
          dsimp only at h
          injection h with h1 h2
          rw [← h1]
          rfl
        | res r0 s0 => rw [hout] at h; exact absurd h (by simp)
        | panic => rw [hout] at h; exact absurd h (by simp)
        | fuelOut => rw [hout] at h; exact absurd h (by simp)
        | seqDone e vals s0 => rw [hout] at h; exact absurd h (by simp)
        | mapDone acc s0 => rw [hout] at h; exact absurd h (by simp)
      | maybe inner =>
        rw [parseStep_maybe] at h
        obtain ⟨hsiS, hstkS⟩ := startSnapshot_srcInv hsi
        obtain ⟨-, -, iP⟩ := step_sound n (.run inner) s.startSnapshot hsiS
        cases hout : parseStep n (.run inner) s.startSnapshot with
        | res r0 s2 =>
          obtain ⟨hsi2, hstk2⟩ := iP s2 (by rw [hout]; rfl)
          have hstk2' : s2.lastSnap = ⟨snapOff s, s.currentPos⟩ :: s.lastSnap :=
            hstk2.trans hstkS
          rw [hout] at h
          dsimp only at h
          by_cases hm0 : r0.matched = true
          · obtain ⟨s3, hpop, -, -, -, -, -, -⟩ := popSnapshot_facts hstk2' hsi2
            rw [if_pos hm0, hpop] at h
            dsimp only at h
            injection h with h1 h2
            subst h1
            have := (ih _ s.startSnapshot hsiS r0 s2 hout).1 inner rfl hm
            rw [this]
            rfl
          · rw [if_neg hm0, rewindSnapshot_cons hstk2'] at h
            dsimp only at h
            injection h with h1 h2
            rw [← h1]
            rfl
        | panic => rw [hout] at h; exact absurd h (by simp)
        | fuelOut => rw [hout] at h; exact absurd h (by simp)
        | seqDone e vals s0 => rw [hout] at h; exact absurd h (by simp)
        | manyDone vals att s0 => rw [hout] at h; exact absurd h (by simp)
        | mapDone acc s0 => rw [hout] at h; exact absurd h (by simp)
      | mapP entries fn =>
        rw [parseStep_mapP] at h
        cases hout : parseStep n (.mapL entries []) s with
        | mapDone acc s0 =>
          rw [hout] at h
          dsimp only at h
          injection h with h1 h2
          rw [← h1]
          rfl
        | res r0 s0 =>
          rw [hout] at h
          dsimp only at h
          injection h with h1 h2
          subst h1
          have := (ih _ s hsi r0 s0 hout).2.2.2 entries [] rfl
          rw [hm] at this
          exact absurd this (by simp)
        | panic => rw [hout] at h; exact absurd h (by simp)
        | fuelOut => rw [hout] at h; exact absurd h (by simp)
        | seqDone e vals s0 => rw [hout] at h; exact absurd h (by simp)
        | manyDone vals att s0 => rw [hout] at h; exact absurd h (by simp)
      | parseWith inner fn =>
        rw [parseStep_parseWith] at h
        cases hout : parseStep n (.run inner) s with
        | res r0 s0 =>
          rw [hout] at h
          dsimp only at h
          by_cases hm0 : r0.matched = true
          · rw [if_pos hm0] at h
            injection h with h1 h2
            rw [← h1]
            have := (ih _ s hsi r0 s0 hout).1 inner rfl hm0
            simp only [PResult.range]
            rw [← this]
            rfl
          · rw [if_neg hm0] at h
            injection h with h1 h2
            subst h1
            rw [hm] at hm0
            exact absurd rfl hm0
        | panic => rw [hout] at h; exact absurd h (by simp)
        | fuelOut => rw [hout] at h; exact absurd h (by simp)
        | seqDone e vals s0 => rw [hout] at h; exact absurd h (by simp)
        | manyDone vals att s0 => rw [hout] at h; exact absurd h (by simp)
        | mapDone acc s0 => rw [hout] at h; exact absurd h (by simp)
      | lazy fn =>
        rw [parseStep_lazy] at h
        exact (ih _ s hsi r s' h).1 (fn ()) rfl hm
      | ignore inner =>
        rw [parseStep_ignore] at h
        cases hout : parseStep n (.run inner) s with
        | res r0 s0 =>
          rw [hout] at h
          dsimp only at h
          by_cases hm0 : r0.matched = true
          · rw [if_pos hm0] at h
            injection h with h1 h2
            rw [← h1]
            have := (ih _ s hsi r0 s0 hout).1 inner rfl hm0
            simp only [PResult.range]
            rw [← this]
            rfl
          · rw [if_neg hm0] at h
            injection h with h1 h2
            subst h1
            rw [hm] at hm0
            exact absurd rfl hm0
        | panic => rw [hout] at h; exact absurd h (by simp)
        | fuelOut => rw [hout] at h; exact absurd h (by simp)
        | seqDone e vals s0 => rw [hout] at h; exact absurd h (by simp)
        | manyDone vals att s0 => rw [hout] at h; exact absurd h (by simp)
        | mapDone acc s0 => rw [hout] at h; exact absurd h (by simp)
    | seqL ps e vals =>
      refine ⟨by intro p hq; exact absurd hq (by simp), ?_,
        by intro ps' hq; exact absurd hq (by simp),
        by intro entries acc hq; exact absurd hq (by simp)⟩
      intro ps' e' vals' hq
      cases ps with
      | nil =>
        rw [parseStep_seqL_nil] at h
        exact absurd h (by simp)
      | cons p rest =>
        rw [parseStep_seqL_cons] at h
        cases hout : parseStep n (.run p) s with
        | res r0 s0 =>
          rw [hout] at h
          dsimp only at h
          by_cases hm0 : r0.matched = true
          · rw [if_pos hm0] at h
            obtain ⟨-, -, iP⟩ := step_sound n (.run p) s hsi
            obtain ⟨hsi0, -⟩ := iP s0 (by rw [hout]; rfl)
            exact (ih _ s0 hsi0 r s' h).2.1 rest r0.range.endPos (vals ++ [r0.resultValue]) rfl
          · rw [if_neg hm0] at h
            injection h with h1 h2
            subst h1
            simpa using hm0
        | panic => rw [hout] at h; exact absurd h (by simp)
        | fuelOut => rw [hout] at h; exact absurd h (by simp)
        | seqDone e0 vals0 s0 => rw [hout] at h; exact absurd h (by simp)
        | manyDone vals0 att s0 => rw [hout] at h; exact absurd h (by simp)
        | mapDone acc s0 => rw [hout] at h; exact absurd h (by simp)
    | orL ps =>
      refine ⟨by intro p hq; exact absurd hq (by simp),
        by intro ps' e vals hq; exact absurd hq (by simp), ?_,
        by intro entries acc hq; exact absurd hq (by simp)⟩
      intro ps' hq hm
      cases ps with
      | nil =>
        rw [parseStep_orL_nil] at h
        injection h with h1 h2
        rw [← h1] at hm
        exact absurd hm (by simp [PResult.matched])
      | cons p rest =>
        rw [parseStep_orL_cons] at h
        obtain ⟨hsiS, hstkS⟩ := startSnapshot_srcInv hsi
        obtain ⟨-, -, iP⟩ := step_sound n (.run p) s.startSnapshot hsiS
        cases hout : parseStep n (.run p) s.startSnapshot with
        | res r0 s2 =>
          obtain ⟨hsi2, hstk2⟩ := iP s2 (by rw [hout]; rfl)
          have hstk2' : s2.lastSnap = ⟨snapOff s, s.currentPos⟩ :: s.lastSnap :=
            hstk2.trans hstkS
          rw [hout] at h
          dsimp only at h
          by_cases hm0 : r0.matched = true
          · obtain ⟨s3, hpop, -, -, -, -, -, -⟩ := popSnapshot_facts hstk2' hsi2
            rw [if_pos hm0, hpop] at h
            dsimp only at h
            injection h with h1 h2
            subst h1
            have := (ih _ s.startSnapshot hsiS r0 s2 hout).1 p rfl hm
            rw [this]
            rfl
          · rw [if_neg hm0, rewindSnapshot_cons hstk2'] at h
            dsimp only at h
            have := (ih (.orL rest)
              ⟨s2.source, (⟨snapOff s, s.currentPos⟩ : Snapshot).position, s.lastSnap,
                true, (⟨snapOff s, s.currentPos⟩ : Snapshot).buffOffset⟩
              hsi2 r s' h).2.2.1 rest rfl hm
            rw [this]
        | panic => rw [hout] at h; exact absurd h (by simp)
        | fuelOut => rw [hout] at h; exact absurd h (by simp)
        | seqDone e vals s0 => rw [hout] at h; exact absurd h (by simp)
        | manyDone vals att s0 => rw [hout] at h; exact absurd h (by simp)
        | mapDone acc s0 => rw [hout] at h; exact absurd h (by simp)
    | manyL inner vals att =>
      refine ⟨by intro p hq; exact absurd hq (by simp),
        by intro ps' e vals' hq; exact absurd hq (by simp),
        by intro ps' hq; exact absurd hq (by simp),
        by intro entries acc hq; exact absurd hq (by simp)⟩
    | mapL entries acc =>
      refine ⟨by intro p hq; exact absurd hq (by simp),
        by intro ps' e vals hq; exact absurd hq (by simp),
        by intro ps' hq; exact absurd hq (by simp), ?_⟩
      intro entries' acc' hq
      cases entries with
      | nil =>
        rw [parseStep_mapL_nil] at h
        exact absurd h (by simp)
      | cons ent rest =>
        obtain ⟨name, p⟩ := ent
        rw [parseStep_mapL_cons] at h
        cases hout : parseStep n (.run p) s with
        | res r0 s0 =>
          rw [hout] at h
          dsimp only at h
          by_cases hm0 : r0.matched = true
          · rw [if_pos hm0] at h
            obtain ⟨-, -, iP⟩ := step_sound n (.run p) s hsi
            obtain ⟨hsi0, -⟩ := iP s0 (by rw [hout]; rfl)
            exact (ih _ s0 hsi0 r s' h).2.2.2 rest
              (if name = "" then acc else assocSet acc name r0.resultValue) rfl
          · rw [if_neg hm0] at h
            injection h with h1 h2
            subst h1
            simpa using hm0
        | panic => rw [hout] at h; exact absurd h (by simp)
        | fuelOut => rw [hout] at h; exact absurd h (by simp)
        | seqDone e0 vals0 s0 => rw [hout] at h; exact absurd h (by simp)
        | manyDone vals0 att' s0 => rw [hout] at h; exact absurd h (by simp)
        | mapDone acc0 s0 => rw [hout] at h; exact absurd h (by simp)

lemma BTS.Extends.bufSize_le {a b : BTS} (hx : BTS.Extends a b)
    (ha : BTS.SrcInv a) (hb : BTS.SrcInv b) : a.bufSize ≤ b.bufSize := by
  obtain ⟨-, d, hbl, -⟩ := hx
  have h1 := BTS.bufList_length ha
  have h2 := BTS.bufList_length hb
  rw [← h1, ← h2, hbl]
  simp

lemma good_of_eof_read {s s' : RScan} (hg : Good s) (h : s.read = .eof s') :
    Good s' ∧ BTS.Extends s.source s'.source ∧ s'.lastSnap = s.lastSnap := by
  obtain ⟨hcp, hsrc, hstk, hrp, hrep⟩ := read_eof_state h
  obtain ⟨h1, h2, h3⟩ := hg
  refine ⟨⟨hsrc ▸ h1, ?_, ?_⟩, hsrc ▸ BTS.Extends.refl s.source, hstk⟩
  · intro hx
    rw [hrep] at hx
    exact absurd hx (by simp)
  · intro hx
    rw [hstk] at hx
    rw [hsrc]
    exact h3 hx

lemma good_of_ok_read {s s' : RScan} {c : Char} (hg : Good s)
    (hrec : s.source.recording = true) (h : s.read = .ok c s') :
    Good s' ∧ BTS.Extends s.source s'.source ∧ s'.lastSnap = s.lastSnap := by
  obtain ⟨-, hg', hstk, -, -, -, hext⟩ := read_ok_future hg h
  exact ⟨hg', hext hrec, hstk⟩

lemma tokGo_good : ∀ (t : List Char) (seen : String) (start : TextPos) (s : RScan),
    Good s → s.source.recording = true →
    ∀ r s', tokGo t seen start s = some (r, s') →
      Good s' ∧ BTS.Extends s.source s'.source := by
  intro t
  induction t with
  | nil =>
    intro seen start s hg hrec r s' h
    simp only [tokGo, Option.some.injEq, Prod.mk.injEq] at h
    rw [← h.2]
    exact ⟨hg, BTS.Extends.refl _⟩
  | cons c cs ih =>
    intro seen start s hg hrec r s' h
    cases hrd : s.read with
    | ok r0 s0 =>
      obtain ⟨hg0, hext0, -⟩ := good_of_ok_read hg hrec hrd
      have hrec0 : s0.source.recording = true := hext0.1.trans hrec
      by_cases hrc : r0 = c
      · have hred : tokGo (c :: cs) seen start s = tokGo cs (seen.push r0) start s0 := by
          simp [tokGo, hrd, hrc]
        rw [hred] at h
        obtain ⟨hg', hext'⟩ := ih _ start s0 hg0 hrec0 r s' h
        exact ⟨hg', hext0.trans hext'⟩
      · have hred : tokGo (c :: cs) seen start s =
            some (.failure (TextRange.single s0.currentPos)
              ("expected token, got " ++ (seen.push r0)), s0) := by
          simp [tokGo, hrd, hrc]
        rw [hred] at h
        simp only [Option.some.injEq, Prod.mk.injEq] at h
        rw [← h.2]
        exact ⟨hg0, hext0⟩
    | eof s0 =>
      obtain ⟨hg0, hext0, -⟩ := good_of_eof_read hg hrd
      have hred : tokGo (c :: cs) seen start s =
          some (.failure (TextRange.single s0.currentPos) "expected token, got error", s0) := by
        simp [tokGo, hrd]
      rw [hred] at h
      simp only [Option.some.injEq, Prod.mk.injEq] at h
      rw [← h.2]
      exact ⟨hg0, hext0⟩
    | panic =>
      have hred : tokGo (c :: cs) seen start s = none := by
        simp [tokGo, hrd]
      rw [hred] at h
      exact absurd h (by simp)

lemma good_pop_keep {s2 : RScan} {f : Snapshot} {rest : List Snapshot}
    (hg2 : Good s2) (hstk : s2.lastSnap = f :: rest) (hne : rest ≠ []) :
    ∃ s3, s2.popSnapshot = some s3 ∧ s3.source = s2.source ∧ s3.lastSnap = rest ∧
      Good s3 := by
  obtain ⟨s3, hpop, hstk3, -, hcp3, hrep3, hrp3, hsrc3⟩ := popSnapshot_facts hstk hg2.1
  have hsrc3' := hsrc3 hne
  refine ⟨s3, hpop, hsrc3', hstk3, ⟨hsrc3' ▸ hg2.1, ?_, ?_⟩⟩
  · intro hx
    rw [hrep3] at hx
    rw [hrp3, hsrc3']
    exact hg2.2.1 hx
  · intro _
    rw [hsrc3']
    exact hg2.2.2 (by rw [hstk]; simp)

lemma good_rewind {s2 : RScan} {f : Snapshot} {rest : List Snapshot}
    (hg2 : Good s2) (hstk : s2.lastSnap = f :: rest)
    (hle : f.buffOffset ≤ s2.source.bufSize) :
    Good ⟨s2.source, f.position, rest, true, f.buffOffset⟩ ∧
      s2.rewindSnapshot = some ⟨s2.source, f.position, rest, true, f.buffOffset⟩ := by
  refine ⟨⟨hg2.1, fun _ => hle, ?_⟩, rewindSnapshot_cons hstk⟩
  intro _
  exact hg2.2.2 (by rw [hstk]; simp)

lemma step_good : ∀ (n : Nat) (req : Req) (s : RScan), Good s → s.lastSnap ≠ [] →
    ∀ s', (parseStep n req s).scanOf = some s' →
      Good s' ∧ BTS.Extends s.source s'.source := by
  intro n
  induction n with
  | zero =>
    intro req s hg hne s' h
    rw [parseStep_zero] at h
    simp [Out.scanOf] at h
  | succ n ih =>
    intro req s hg hne s' h
    have hrec : s.source.recording = true := hg.2.2 hne
    cases req with
    | run p =>
      cases p with
      | eofP =>
        rw [parseStep_eofP] at h
        cases hrd : s.read with
        | ok c s0 =>
          rw [hrd] at h
          dsimp only at h
          simp only [Out.scanOf, Option.some.injEq] at h
          obtain ⟨h1, h2, -⟩ := good_of_ok_read hg hrec hrd
          rw [← h]
          exact ⟨h1, h2⟩
        | eof s0 =>
          rw [hrd] at h
          dsimp only at h
          simp only [Out.scanOf, Option.some.injEq] at h
          obtain ⟨h1, h2, -⟩ := good_of_eof_read hg hrd
          rw [← h]
          exact ⟨h1, h2⟩
        | panic =>
          rw [hrd] at h
          simp [Out.scanOf] at h
      | char mn mx =>
        rw [parseStep_char] at h
        cases hrd : s.read with
        | ok c s0 =>
          rw [hrd] at h
          dsimp only at h
          rw [ite_out_res] at h
          simp only [Out.scanOf, Option.some.injEq] at h
          obtain ⟨h1, h2, -⟩ := good_of_ok_read hg hrec hrd
          rw [← h]
          exact ⟨h1, h2⟩
        | eof s0 =>
          rw [hrd] at h
          dsimp only at h
          simp only [Out.scanOf, Option.some.injEq] at h
          obtain ⟨h1, h2, -⟩ := good_of_eof_read hg hrd
          rw [← h]
          exact ⟨h1, h2⟩
        | panic =>
          rw [hrd] at h
          simp [Out.scanOf] at h
      | charSet allowed invert =>
        rw [parseStep_charSet] at h
        cases hrd : s.read with
        | ok c s0 =>
          rw [hrd] at h
          dsimp only at h
          rw [ite_out_res] at h
          simp only [Out.scanOf, Option.some.injEq] at h
          obtain ⟨h1, h2, -⟩ := good_of_ok_read hg hrec hrd
          rw [← h]
          exact ⟨h1, h2⟩
        | eof s0 =>
          rw [hrd] at h
          dsimp only at h
          simp only [Out.scanOf, Option.some.injEq] at h
          obtain ⟨h1, h2, -⟩ := good_of_eof_read hg hrd
          rw [← h]
          exact ⟨h1, h2⟩
        | panic =>
          rw [hrd] at h
          simp [Out.scanOf] at h
      | token t =>
        rw [parseStep_token] at h
        cases htk : tokGo t.data "" s.currentPos s with
        | none =>
          rw [htk] at h
          simp [Out.scanOf] at h
        | some pr =>
          obtain ⟨r, s0⟩ := pr
          rw [htk] at h
          dsimp only at h
          simp only [Out.scanOf, Option.some.injEq] at h
          obtain ⟨h1, h2⟩ := tokGo_good t.data "" s.currentPos s hg hrec r s0 htk
          rw [← h]
          exact ⟨h1, h2⟩
      | seq ps =>
        rw [parseStep_seq] at h
        obtain ⟨iS, -, -⟩ := step_sound n (.seqL ps ⟨0, 0⟩ []) s hg.1
        cases hout : parseStep n (.seqL ps ⟨0, 0⟩ []) s with
        | seqDone e vals s0 =>
          rw [hout] at h
          dsimp only at h
          simp only [Out.scanOf, Option.some.injEq] at h
          rw [← h]
          exact ih (.seqL ps ⟨0, 0⟩ []) s hg hne s0 (by rw [hout]; rfl)
        | res r s0 =>
          rw [hout] at h
          dsimp only at h
          simp only [Out.scanOf, Option.some.injEq] at h
          rw [← h]
          exact ih (.seqL ps ⟨0, 0⟩ []) s hg hne s0 (by rw [hout]; rfl)
        | panic => rw [hout] at h; simp [Out.scanOf] at h
        | fuelOut => rw [hout] at h; simp [Out.scanOf] at h
        | manyDone vals att s0 => rw [hout] at iS; exact iS.elim
        | mapDone acc s0 => rw [hout] at iS; exact iS.elim
      | orP ps =>
        rw [parseStep_orP] at h
        exact ih (.orL ps) s hg hne s' h
      | many inner combine =>
        rw [parseStep_many] at h
        obtain ⟨iS, -, -⟩ := step_sound n (.manyL inner [] 0) s hg.1
        cases hout : parseStep n (.manyL inner [] 0) s with
        | manyDone vals att s0 =>
          rw [hout] at h
          dsimp only at h
          simp only [Out.scanOf, Option.some.injEq] at h
          rw [← h]
          exact ih (.manyL inner [] 0) s hg hne s0 (by rw [hout]; rfl)
        | panic => rw [hout] at h; simp [Out.scanOf] at h
        | fuelOut => rw [hout] at h; simp [Out.scanOf] at h
        | res r s0 => rw [hout] at iS; exact iS.elim
        | seqDone e vals s0 => rw [hout] at iS; exact iS.elim
        | mapDone acc s0 => rw [hout] at iS; exact iS.elim
      | maybe inner =>
        rw [parseStep_maybe] at h
        obtain ⟨hstkS, hcpS, hrepS, hrpS, hgS, hrecS, hfutS, hreplS, hoffS, hsrcS⟩ :=
          startSnapshot_spec hg
        have hsrcS' : s.startSnapshot.source = s.source := hsrcS hrec
        obtain ⟨-, -, iP⟩ := step_sound n (.run inner) s.startSnapshot (hgS.1)
        cases hout : parseStep n (.run inner) s.startSnapshot with
        | res r s2 =>
          obtain ⟨-, hstk2⟩ := iP s2 (by rw [hout]; rfl)
          have hstk2' : s2.lastSnap = ⟨snapOff s, s.currentPos⟩ :: s.lastSnap := by
            rw [hstk2, hstkS]
          obtain ⟨hg2, hext2⟩ := ih (.run inner) s.startSnapshot hgS
            (by rw [hstkS]; simp) s2 (by rw [hout]; rfl)
          have hext2' : BTS.Extends s.source s2.source := hsrcS' ▸ hext2
          rw [hout] at h
          dsimp only at h
          by_cases hm : r.matched = true
          · obtain ⟨s3, hpop, hsrc3, hstk3, hg3⟩ := good_pop_keep hg2 hstk2' hne
            rw [if_pos hm, hpop] at h
            dsimp only at h
            simp only [Out.scanOf, Option.some.injEq] at h
            rw [← h]
            exact ⟨hg3, hsrc3 ▸ hext2'⟩
          · have hle : snapOff s ≤ s2.source.bufSize :=
              le_trans hoffS (hext2.bufSize_le hgS.1 hg2.1)
            obtain ⟨hg3, hrw⟩ := good_rewind hg2 hstk2' hle
            rw [if_neg hm, hrw] at h
            dsimp only at h
            simp only [Out.scanOf, Option.some.injEq] at h
            rw [← h]
            exact ⟨hg3, hext2'⟩
        | panic => rw [hout] at h; simp [Out.scanOf] at h
        | fuelOut => rw [hout] at h; simp [Out.scanOf] at h
        | seqDone e vals s0 =>
          obtain ⟨iS, -, -⟩ := step_sound n (.run inner) s.startSnapshot hgS.1
          rw [hout] at iS
          exact iS.elim
        | manyDone vals att s0 =>
          obtain ⟨iS, -, -⟩ := step_sound n (.run inner) s.startSnapshot hgS.1
          rw [hout] at iS
          exact iS.elim
        | mapDone acc s0 =>
          obtain ⟨iS, -, -⟩ := step_sound n (.run inner) s.startSnapshot hgS.1
          rw [hout] at iS
          exact iS.elim
      | mapP entries fn =>
        rw [parseStep_mapP] at h
        obtain ⟨iS, -, -⟩ := step_sound n (.mapL entries []) s hg.1
        cases hout : parseStep n (.mapL entries []) s with
        | mapDone acc s0 =>
          rw [hout] at h
          dsimp only at h
          simp only [Out.scanOf, Option.some.injEq] at h
          rw [← h]
          exact ih (.mapL entries []) s hg hne s0 (by rw [hout]; rfl)
        | res r s0 =>
          rw [hout] at h
          dsimp only at h
          simp only [Out.scanOf, Option.some.injEq] at h
          rw [← h]
          exact ih (.mapL entries []) s hg hne s0 (by rw [hout]; rfl)
        | panic => rw [hout] at h; simp [Out.scanOf] at h
        | fuelOut => rw [hout] at h; simp [Out.scanOf] at h
        | seqDone e vals s0 => rw [hout] at iS; exact iS.elim
        | manyDone vals att s0 => rw [hout] at iS; exact iS.elim
      | parseWith inner fn =>
        rw [parseStep_parseWith] at h
        obtain ⟨iS, -, -⟩ := step_sound n (.run inner) s hg.1
        cases hout : parseStep n (.run inner) s with
        | res r s0 =>
          rw [hout] at h
          dsimp only at h
          have hih := ih (.run inner) s hg hne s0 (by rw [hout]; rfl)
          by_cases hm : r.matched = true
          · rw [if_pos hm] at h
            simp only [Out.scanOf, Option.some.injEq] at h
            rw [← h]
            exact hih
          · rw [if_neg hm] at h
            simp only [Out.scanOf, Option.some.injEq] at h
            rw [← h]
            exact hih
        | panic => rw [hout] at h; simp [Out.scanOf] at h
        | fuelOut => rw [hout] at h; simp [Out.scanOf] at h
        | seqDone e vals s0 => rw [hout] at iS; exact iS.elim
        | manyDone vals att s0 => rw [hout] at iS; exact iS.elim
        | mapDone acc s0 => rw [hout] at iS; exact iS.elim
      | lazy fn =>
        rw [parseStep_lazy] at h
        exact ih (.run (fn ())) s hg hne s' h
      | ignore inner =>
        rw [parseStep_ignore] at h
        obtain ⟨iS, -, -⟩ := step_sound n (.run inner) s hg.1
        cases hout : parseStep n (.run inner) s with
        | res r s0 =>
          rw [hout] at h
          dsimp only at h
          have hih := ih (.run inner) s hg hne s0 (by rw [hout]; rfl)
          by_cases hm : r.matched = true
          · rw [if_pos hm] at h
            simp only [Out.scanOf, Option.some.injEq] at h
            rw [← h]
            exact hih
          · rw [if_neg hm] at h
            simp only [Out.scanOf, Option.some.injEq] at h
            rw [← h]
            exact hih
        | panic => rw [hout] at h; simp [Out.scanOf] at h
        | fuelOut => rw [hout] at h; simp [Out.scanOf] at h
        | seqDone e vals s0 => rw [hout] at iS; exact iS.elim
        | manyDone vals att s0 => rw [hout] at iS; exact iS.elim
        | mapDone acc s0 => rw [hout] at iS; exact iS.elim
    | seqL ps e vals =>
      cases ps with
      | nil =>
        rw [parseStep_seqL_nil] at h
        simp only [Out.scanOf, Option.some.injEq] at h
        rw [← h]
        exact ⟨hg, BTS.Extends.refl _⟩
      | cons p rest =>
        rw [parseStep_seqL_cons] at h
        obtain ⟨iS, -, iP⟩ := step_sound n (.run p) s hg.1
        cases hout : parseStep n (.run p) s with
        | res r s0 =>
          obtain ⟨-, hstk0⟩ := iP s0 (by rw [hout]; rfl)
          obtain ⟨hg0, hext0⟩ := ih (.run p) s hg hne s0 (by rw [hout]; rfl)
          rw [hout] at h
          dsimp only at h
          by_cases hm : r.matched = true
          · rw [if_pos hm] at h
            obtain ⟨hg', hext'⟩ := ih (.seqL rest r.range.endPos (vals ++ [r.resultValue]))
              s0 hg0 (by rw [hstk0]; exact hne) s' h
            exact ⟨hg', hext0.trans hext'⟩
          · rw [if_neg hm] at h
            simp only [Out.scanOf, Option.some.injEq] at h
            rw [← h]
            exact ⟨hg0, hext0⟩
        | panic => rw [hout] at h; simp [Out.scanOf] at h
        | fuelOut => rw [hout] at h; simp [Out.scanOf] at h
        | seqDone e0 vals0 s0 => rw [hout] at iS; exact iS.elim
        | manyDone vals0 att s0 => rw [hout] at iS; exact iS.elim
        | mapDone acc s0 => rw [hout] at iS; exact iS.elim
    | orL ps =>
      cases ps with
      | nil =>
        rw [parseStep_orL_nil] at h
        simp only [Out.scanOf, Option.some.injEq] at h
        rw [← h]
        exact ⟨hg, BTS.Extends.refl _⟩
      | cons p rest =>
        rw [parseStep_orL_cons] at h
        obtain ⟨hstkS, hcpS, hrepS, hrpS, hgS, hrecS, hfutS, hreplS, hoffS, hsrcS⟩ :=
          startSnapshot_spec hg
        have hsrcS' : s.startSnapshot.source = s.source := hsrcS hrec
        obtain ⟨iS, -, iP⟩ := step_sound n (.run p) s.startSnapshot hgS.1
        cases hout : parseStep n (.run p) s.startSnapshot with
        | res r s2 =>
          obtain ⟨-, hstk2⟩ := iP s2 (by rw [hout]; rfl)
          have hstk2' : s2.lastSnap = ⟨snapOff s, s.currentPos⟩ :: s.lastSnap := by
            rw [hstk2, hstkS]
          obtain ⟨hg2, hext2⟩ := ih (.run p) s.startSnapshot hgS
            (by rw [hstkS]; simp) s2 (by rw [hout]; rfl)
          have hext2' : BTS.Extends s.source s2.source := hsrcS' ▸ hext2
          rw [hout] at h
          dsimp only at h
          by_cases hm : r.matched = true
          · obtain ⟨s3, hpop, hsrc3, hstk3, hg3⟩ := good_pop_keep hg2 hstk2' hne
            rw [if_pos hm, hpop] at h
            dsimp only at h
            simp only [Out.scanOf, Option.some.injEq] at h
            rw [← h]
            exact ⟨hg3, hsrc3 ▸ hext2'⟩
          · have hle : snapOff s ≤ s2.source.bufSize :=
              le_trans hoffS (hext2.bufSize_le hgS.1 hg2.1)
            obtain ⟨hg3, hrw⟩ := good_rewind hg2 hstk2' hle
            rw [if_neg hm, hrw] at h
            dsimp only at h
            obtain ⟨hg', hext'⟩ := ih (.orL rest)
              ⟨s2.source, (⟨snapOff s, s.currentPos⟩ : Snapshot).position, s.lastSnap,
                true, (⟨snapOff s, s.currentPos⟩ : Snapshot).buffOffset⟩
              hg3 hne s' h
            exact ⟨hg', hext2'.trans hext'⟩
        | panic => rw [hout] at h; simp [Out.scanOf] at h
        | fuelOut => rw [hout] at h; simp [Out.scanOf] at h
        | seqDone e vals s0 => rw [hout] at iS; exact iS.elim
        | manyDone vals att s0 => rw [hout] at iS; exact iS.elim
        | mapDone acc s0 => rw [hout] at iS; exact iS.elim
    | manyL inner vals att =>
      rw [parseStep_manyL] at h
      obtain ⟨hstkS, hcpS, hrepS, hrpS, hgS, hrecS, hfutS, hreplS, hoffS, hsrcS⟩ :=
        startSnapshot_spec hg
      have hsrcS' : s.startSnapshot.source = s.source := hsrcS hrec
      obtain ⟨iS, -, iP⟩ := step_sound n (.run inner) s.startSnapshot hgS.1
      cases hout : parseStep n (.run inner) s.startSnapshot with
      | res r s2 =>
        obtain ⟨-, hstk2⟩ := iP s2 (by rw [hout]; rfl)
        have hstk2' : s2.lastSnap = ⟨snapOff s, s.currentPos⟩ :: s.lastSnap := by
          rw [hstk2, hstkS]
        obtain ⟨hg2, hext2⟩ := ih (.run inner) s.startSnapshot hgS
          (by rw [hstkS]; simp) s2 (by rw [hout]; rfl)
        have hext2' : BTS.Extends s.source s2.source := hsrcS' ▸ hext2
        rw [hout] at h
        dsimp only at h
        by_cases hm : r.matched = true
        · obtain ⟨s3, hpop, hsrc3, hstk3, hg3⟩ := good_pop_keep hg2 hstk2' hne
          rw [if_pos hm, hpop] at h
          dsimp only at h
          obtain ⟨hg', hext'⟩ := ih (.manyL inner (vals ++ [r.resultValue]) (att + 1))
            s3 hg3 (by rw [hstk3]; exact hne) s' h
          refine ⟨hg', ?_⟩
          rw [← hsrc3] at hext2'
          exact hext2'.trans hext'
        · have hle : snapOff s ≤ s2.source.bufSize :=
            le_trans hoffS (hext2.bufSize_le hgS.1 hg2.1)
          obtain ⟨hg3, hrw⟩ := good_rewind hg2 hstk2' hle
          rw [if_neg hm, hrw] at h
          dsimp only at h
          simp only [Out.scanOf, Option.some.injEq] at h
          rw [← h]
          exact ⟨hg3, hext2'⟩
      | panic => rw [hout] at h; simp [Out.scanOf] at h
      | fuelOut => rw [hout] at h; simp [Out.scanOf] at h
      | seqDone e vals0 s0 => rw [hout] at iS; exact iS.elim
      | manyDone vals0 att0 s0 => rw [hout] at iS; exact iS.elim
      | mapDone acc s0 => rw [hout] at iS; exact iS.elim
    | mapL entries acc =>
      cases entries with
      | nil =>
        rw [parseStep_mapL_nil] at h
        simp only [Out.scanOf, Option.some.injEq] at h
        rw [← h]
        exact ⟨hg, BTS.Extends.refl _⟩
      | cons ent rest =>
        obtain ⟨name, p⟩ := ent
        rw [parseStep_mapL_cons] at h
        obtain ⟨iS, -, iP⟩ := step_sound n (.run p) s hg.1
        cases hout : parseStep n (.run p) s with
        | res r s0 =>
          obtain ⟨-, hstk0⟩ := iP s0 (by rw [hout]; rfl)
          obtain ⟨hg0, hext0⟩ := ih (.run p) s hg hne s0 (by rw [hout]; rfl)
          rw [hout] at h
          dsimp only at h
          by_cases hm : r.matched = true
          · rw [if_pos hm] at h
            obtain ⟨hg', hext'⟩ := ih
              (.mapL rest (if name = "" then acc else assocSet acc name r.resultValue))
              s0 hg0 (by rw [hstk0]; exact hne) s' h
            exact ⟨hg', hext0.trans hext'⟩
          · rw [if_neg hm] at h
            simp only [Out.scanOf, Option.some.injEq] at h
            rw [← h]
            exact ⟨hg0, hext0⟩
        | panic => rw [hout] at h; simp [Out.scanOf] at h
        | fuelOut => rw [hout] at h; simp [Out.scanOf] at h
        | seqDone e0 vals0 s0 => rw [hout] at iS; exact iS.elim
        | manyDone vals0 att0 s0 => rw [hout] at iS; exact iS.elim
        | mapDone acc0 s0 => rw [hout] at iS; exact iS.elim

/-! ### The merge rule and the Sequence characterisation -/

lemma cleanupLoop_eq : ∀ (l orig : List Value) (acc : String),
    cleanupLoop orig l acc =
      if allStrings l then
        .str (l.foldl (fun a v => match v with | .str s => a ++ s | .list _ => a) acc)
      else .list orig := by
  intro l
  induction l with
  | nil =>
    intro orig acc
    simp [cleanupLoop, allStrings]
  | cons v vs ih =>
    intro orig acc
    cases v with
    | str s =>
      have h1 : cleanupLoop orig (.str s :: vs) acc = cleanupLoop orig vs (acc ++ s) := rfl
      have h2 : allStrings (.str s :: vs) = allStrings vs := by
        simp [allStrings]
      rw [h1, h2, ih]
      rfl
    | list l' =>
      have h1 : cleanupLoop orig (.list l' :: vs) acc = .list orig := rfl
      have h2 : allStrings (.list l' :: vs) = false := by
        simp [allStrings]
      rw [h1, h2]
      simp

lemma cleanupResult_eq_specMerge (rs : List Value) : cleanupResult rs = specMerge rs := by
  unfold cleanupResult specMerge concatStrings
  rw [cleanupLoop_eq]

lemma lastEnd_cons (e : TextPos) (r : PResult) (rs : List PResult) :
    lastEnd e (r :: rs) = lastEnd r.range.endPos rs := by
  cases rs with
  | nil => simp [lastEnd]
  | cons r' rs' =>
    unfold lastEnd
    rw [List.getLast?_cons_cons]
    cases h : (r' :: rs').getLast? with
    | some rr => rfl
    | none => exact absurd h (by simp)

lemma seqL_subRuns : ∀ (k : Nat) (ps : List PParser) (s : RScan) (e : TextPos)
    (vals : List Value),
    (∀ rs s'', subRuns k ps s = .allOk rs s'' →
      parseStep k (.seqL ps e vals) s =
        .seqDone (lastEnd e rs) (vals ++ rs.map PResult.resultValue) s'') ∧
    (∀ rf s'', subRuns k ps s = .firstFail rf s'' →
      parseStep k (.seqL ps e vals) s = .res rf s'' ∧ rf.matched = false) := by
  intro k
  induction k with
  | zero =>
    intro ps s e vals
    constructor
    · intro rs s'' h
      simp [subRuns] at h
    · intro rf s'' h
      simp [subRuns] at h
  | succ k ih =>
    intro ps s e vals
    cases ps with
    | nil =>
      constructor
      · intro rs s'' h
        simp only [subRuns, SubOut.allOk.injEq] at h
        obtain ⟨h1, h2⟩ := h
        subst h1
        subst h2
        rw [parseStep_seqL_nil]
        simp [lastEnd]
      · intro rf s'' h
        simp [subRuns] at h
    | cons p rest =>
      have hsub : subRuns (k + 1) (p :: rest) s =
          match parseStep k (.run p) s with
          | .res r s' =>
            if r.matched then
              match subRuns k rest s' with
              | .allOk rs s'' => .allOk (r :: rs) s''
              | .firstFail rf s'' => .firstFail rf s''
              | .abort => .abort
            else .firstFail r s'
          | _ => .abort := rfl
      cases hrun : parseStep k (.run p) s with
      | res r0 s0 =>
        rw [hrun] at hsub
        dsimp only at hsub
        by_cases hm : r0.matched = true
        · rw [if_pos hm] at hsub
          cases hsr : subRuns k rest s0 with
          | allOk rs' s1 =>
            rw [hsr] at hsub
            dsimp only at hsub
            constructor
            · intro rs s'' h
              rw [hsub] at h
              injection h with h1 h2
              subst h1
              subst h2
              rw [parseStep_seqL_cons, hrun]
              dsimp only
              rw [if_pos hm]
              have := (ih rest s0 r0.range.endPos (vals ++ [r0.resultValue])).1 rs' s1 hsr
              rw [this, lastEnd_cons]
              simp
            · intro rf s'' h
              rw [hsub] at h
              exact absurd h (by simp)
          | firstFail rf' s1 =>
            rw [hsr] at hsub
            dsimp only at hsub
            constructor
            · intro rs s'' h
              rw [hsub] at h
              exact absurd h (by simp)
            · intro rf s'' h
              rw [hsub] at h
              injection h with h1 h2
              subst h1
              subst h2
              rw [parseStep_seqL_cons, hrun]
              dsimp only
              rw [if_pos hm]
              exact (ih rest s0 r0.range.endPos (vals ++ [r0.resultValue])).2 rf' s1 hsr
          | abort =>
            rw [hsr] at hsub
            dsimp only at hsub
            constructor
            · intro rs s'' h
              rw [hsub] at h
              exact absurd h (by simp)
            · intro rf s'' h
              rw [hsub] at h
              exact absurd h (by simp)
        · rw [if_neg hm] at hsub
          constructor
          · intro rs s'' h
            rw [hsub] at h
            exact absurd h (by simp)
          · intro rf s'' h
            rw [hsub] at h
            injection h with h1 h2
            subst h1
            subst h2
            rw [parseStep_seqL_cons, hrun]
            dsimp only
            rw [if_neg hm]
            exact ⟨rfl, by simpa using hm⟩
      | panic =>
        rw [hrun] at hsub
        dsimp only at hsub
        exact ⟨fun rs s'' h => absurd (hsub.symm.trans h) (by simp),
          fun rf s'' h => absurd (hsub.symm.trans h) (by simp)⟩
      | fuelOut =>
        rw [hrun] at hsub
        dsimp only at hsub
        exact ⟨fun rs s'' h => absurd (hsub.symm.trans h) (by simp),
          fun rf s'' h => absurd (hsub.symm.trans h) (by simp)⟩
      | seqDone e0 vals0 s0 =>
        rw [hrun] at hsub
        dsimp only at hsub
        exact ⟨fun rs s'' h => absurd (hsub.symm.trans h) (by simp),
          fun rf s'' h => absurd (hsub.symm.trans h) (by simp)⟩
      | manyDone vals0 att s0 =>
        rw [hrun] at hsub
        dsimp only at hsub
        exact ⟨fun rs s'' h => absurd (hsub.symm.trans h) (by simp),
          fun rf s'' h => absurd (hsub.symm.trans h) (by simp)⟩
      | mapDone acc s0 =>
        rw [hrun] at hsub
        dsimp only at hsub
        exact ⟨fun rs s'' h => absurd (hsub.symm.trans h) (by simp),
          fun rf s'' h => absurd (hsub.symm.trans h) (by simp)⟩

/-! ### Remaining small facts -/

lemma TextPos.advance_ne (p : TextPos) (c : Char) : p.advance c ≠ p := by
  unfold TextPos.advance TextPos.advanceLine TextPos.advanceCol
  by_cases h : c = '\n'
  · rw [if_pos h]
    intro hx
    have := congrArg TextPos.line hx
    simp at this
  · rw [if_neg h]
    intro hx
    have := congrArg TextPos.col hx
    simp at this

lemma BTS.read_rec {src src' : BTS} {c : Char} (h : src.read = some (c, src')) :
    src'.recording = src.recording := by
  cases src with
  | rbs runes pos ro rec =>
    simp only [BTS.read] at h
    cases hg : runes[pos]? with
    | none => rw [hg] at h; exact absurd h (by simp)
    | some c0 =>
      rw [hg] at h
      injection h with h
      injection h with h1 h2
      rw [← h2]
      rfl
  | sbs stream buf rec =>
    cases stream with
    | nil => simp [BTS.read] at h
    | cons c0 rest =>
      simp only [BTS.read] at h
      injection h with h
      injection h with h1 h2
      rw [← h2]
      rfl

lemma read_ok_basic {s : RScan} {c : Char} {s' : RScan} (h : s.read = .ok c s') :
    s'.lastSnap = s.lastSnap ∧ s'.source.recording = s.source.recording ∧
      s'.currentPos = s.currentPos.advance c := by
  obtain ⟨src, cp, stk, rep, rp⟩ := s
  have hlive : ∀ (rep' : Bool),
      RScan.liveRead ⟨src, cp, stk, rep', rp⟩ = .ok c s' →
      s'.lastSnap = stk ∧ s'.source.recording = src.recording ∧
        s'.currentPos = cp.advance c := by
    intro rep' hl
    cases hrd : src.read with
    | some p =>
      obtain ⟨c0, src0⟩ := p
      simp only [RScan.liveRead, hrd] at hl
      injection hl with h1 h2
      subst h1
      rw [← h2]
      exact ⟨rfl, BTS.read_rec hrd, rfl⟩
    | none => simp [RScan.liveRead, hrd] at hl
  cases rep with
  | false =>
    have hunfold : (⟨src, cp, stk, false, rp⟩ : RScan).read =
        RScan.liveRead ⟨src, cp, stk, false, rp⟩ := by
      simp [RScan.read]
    rw [hunfold] at h
    exact hlive false h
  | true =>
    by_cases hlt : rp < src.bufSize
    · cases hrb : src.readBuffer rp with
      | some c0 =>
        have hunfold : (⟨src, cp, stk, true, rp⟩ : RScan).read =
            .ok c0 ⟨src, cp.advance c0, stk, true, rp + 1⟩ := by
          simp [RScan.read, hlt, hrb]
        rw [hunfold] at h
        injection h with h1 h2
        subst h1
        rw [← h2]
        exact ⟨rfl, rfl, rfl⟩
      | none =>
        have hunfold : (⟨src, cp, stk, true, rp⟩ : RScan).read = .panic := by
          simp [RScan.read, hlt, hrb]
        rw [hunfold] at h
        exact absurd h (by simp)
    · have hunfold : (⟨src, cp, stk, true, rp⟩ : RScan).read =
          RScan.liveRead ⟨src, cp, stk, false, rp⟩ := by
        simp [RScan.read, hlt]
      rw [hunfold] at h
      exact hlive false h

lemma BTS.startBuffer_recording (src : BTS) : src.startBuffer.recording = true := by
  cases src with
  | rbs runes pos ro rec =>
    cases rec with
    | true => simp [BTS.startBuffer, BTS.recording]
    | false => simp [BTS.startBuffer, BTS.recording]
  | sbs stream buf rec => simp [BTS.startBuffer, BTS.recording]

lemma good_fromString (str : String) : Good (RScan.fromString str) := by
  refine ⟨⟨Nat.zero_le _, ?_⟩, ?_, ?_⟩
  · intro h
    exact absurd h (by simp)
  · intro h
    simp [RScan.fromString] at h
  · intro h
    simp [RScan.fromString] at h

lemma good_fromStream (cs : List Char) : Good (RScan.fromStream cs) := by
  refine ⟨trivial, ?_, ?_⟩
  · intro h
    simp [RScan.fromStream] at h
  · intro h
    simp [RScan.fromStream] at h

/-! ### Claim theorems -/

lemma futureRunes_fromString (str : String) :
    futureRunes (RScan.fromString str) = str.data := by
  simp [futureRunes, RScan.fromString, BTS.liveRest]

/-- C1: for every backtracking source (fully-resident text `BTS.rbs` or
forward-only stream `BTS.sbs`) in a well-formed scanner state, after
`StartSnapshot`, reading `n` runes, and then `RewindSnapshot`, the scanner's
position equals the position captured at the snapshot, and the next `n`
calls to `Read` return exactly the same `n` runes in the same order. -/
theorem c1_rewind_restores_and_replays {s : RScan} {n : Nat} {rs : List Char}
    {s2 : RScan} (hg : Good s) (hr : readN n s.startSnapshot = some (rs, s2)) :
    ∃ s3, s2.rewindSnapshot = some s3 ∧ s3.currentPos = s.currentPos ∧
      ∃ s4, readN n s3 = some (rs, s4) := by
  obtain ⟨hstkS, hcpS, hrepS, hrpS, hgS, hrecS, hfutS, hreplS, hoffS, -⟩ :=
    startSnapshot_spec hg
  obtain ⟨hfutN, hg2, hsnap2, hrec2, hbs2, hext2, hlen⟩ := readN_spec hgS hr
  have hstk2 : s2.lastSnap = ⟨snapOff s, s.currentPos⟩ :: s.lastSnap := by
    rw [hsnap2, hstkS]
  have hle : snapOff s ≤ s2.source.bufSize := le_trans hoffS hbs2
  obtain ⟨hg3, hrw⟩ := good_rewind hg2 hstk2 hle
  refine ⟨_, hrw, rfl, ?_⟩
  have hfut3 : futureRunes ⟨s2.source, (⟨snapOff s, s.currentPos⟩ : Snapshot).position,
      s.lastSnap, true, (⟨snapOff s, s.currentPos⟩ : Snapshot).buffOffset⟩ =
      rs ++ futureRunes s2 := by
    rw [futureRunes_mk_true]
    show replayFrom (snapOff s) s2.source = _
    rw [replayFrom_extends (hext2 hrecS) hgS.1 hoffS, hreplS, ← hfutS, hfutN]
  obtain ⟨s4, hrdN, -, -, -⟩ := readN_of_future hg3 hfut3
  rw [hlen] at hrdN
  exact ⟨s4, hrdN⟩

/-- Witness for C1 at the fully-resident source over `"abc"` with two reads. -/
theorem c1_witness :
    ∃ s3, (⟨.rbs "abc".data 2 0 true, ⟨0, 2⟩, [⟨0, ⟨0, 0⟩⟩], false, 0⟩ : RScan).rewindSnapshot =
        some s3 ∧
      s3.currentPos = (RScan.fromString "abc").currentPos ∧
      ∃ s4, readN 2 s3 = some (['a', 'b'], s4) :=
  @c1_rewind_restores_and_replays (RScan.fromString "abc") 2 ['a', 'b']
    ⟨.rbs "abc".data 2 0 true, ⟨0, 2⟩, [⟨0, ⟨0, 0⟩⟩], false, 0⟩ (by decide) (by rfl)

/-- C2: nested snapshots compose: after an outer snapshot, reads, an inner
snapshot, reads, an inner rewind and further reads, the outer rewind still
restores the outer snapshot's position and replays its runes; and
`StartSnapshot` called while replaying records the current replay offset as
the new frame's buffer offset. -/
theorem c2_nested_snapshots_compose :
    (∀ (s : RScan) (a b c : Nat) (ra rb rc : List Char) (s2 s3 s4 s5 s6 : RScan),
      Good s →
      readN a s.startSnapshot = some (ra, s2) →
      readN b s2.startSnapshot = some (rb, s3) →
      s3.rewindSnapshot = some s4 →
      readN c s4 = some (rc, s5) →
      s5.rewindSnapshot = some s6 →
      s6.currentPos = s.currentPos ∧ ∃ s7, readN a s6 = some (ra, s7)) ∧
    (∀ s : RScan, s.isReplaying = true →
      s.startSnapshot.lastSnap.head? = some ⟨s.replayPos, s.currentPos⟩) := by
  constructor
  · intro s a b c ra rb rc s2 s3 s4 s5 s6 hg hra hrb hrw1 hrc hrw2
    obtain ⟨hstkS, -, -, -, hgS, hrecS, hfutS, hreplS, hoffS, -⟩ := startSnapshot_spec hg
    obtain ⟨hfut1, hg2, hstk2, hrec2, hbs2, hext2, hlen1⟩ := readN_spec hgS hra
    obtain ⟨hstkS2, -, -, -, hgS2, hrecS2, hfutS2, hreplS2, hoffS2, hsrcS2⟩ :=
      startSnapshot_spec hg2
    have hrec2' : s2.source.recording = true := hrec2.trans hrecS
    have hsrc2eq : s2.startSnapshot.source = s2.source := hsrcS2 hrec2'
    obtain ⟨hfut2, hg3, hstk3, hrec3, hbs3, hext3, hlen2⟩ := readN_spec hgS2 hrb
    have hstk3' : s3.lastSnap = ⟨snapOff s2, s2.currentPos⟩ :: s2.lastSnap := by
      rw [hstk3, hstkS2]
    have hle2 : snapOff s2 ≤ s3.source.bufSize := le_trans hoffS2 hbs3
    obtain ⟨hg4, hrw1'⟩ := good_rewind hg3 hstk3' hle2
    rw [hrw1'] at hrw1
    injection hrw1 with hrw1
    subst hrw1
    obtain ⟨hfut3, hg5, hstk5, hrec5, hbs5, hext4, hlen3⟩ := readN_spec hg4 hrc
    have hstk5' : s5.lastSnap = ⟨snapOff s, s.currentPos⟩ :: s.lastSnap := by
      rw [hstk5]
      show s2.lastSnap = _
      rw [hstk2, hstkS]
    have hx1 : BTS.Extends s.startSnapshot.source s2.source := hext2 hrecS
    have hx2 : BTS.Extends s2.source s3.source := by
      rw [← hsrc2eq]
      exact hext3 hrecS2
    have hx3 : BTS.Extends s3.source s5.source := by
      have := hext4 (by show s3.source.recording = true; rw [hrec3]; exact hrecS2)
      exact this
    have hchain : BTS.Extends s.startSnapshot.source s5.source :=
      hx1.trans (hx2.trans hx3)
    have hle1 : snapOff s ≤ s5.source.bufSize :=
      le_trans hoffS (hchain.bufSize_le hgS.1 hg5.1)
    obtain ⟨hg6, hrw2'⟩ := good_rewind hg5 hstk5' hle1
    rw [hrw2'] at hrw2
    injection hrw2 with hrw2
    subst hrw2
    refine ⟨rfl, ?_⟩
    have hfut6 : futureRunes ⟨s5.source, (⟨snapOff s, s.currentPos⟩ : Snapshot).position,
        s.lastSnap, true, (⟨snapOff s, s.currentPos⟩ : Snapshot).buffOffset⟩ =
        ra ++ futureRunes s2 := by
      rw [futureRunes_mk_true]
      show replayFrom (snapOff s) s5.source = _
      rw [replayFrom_extends hchain hgS.1 hoffS, hreplS, ← hfutS, hfut1]
    obtain ⟨s7, hrdN, -, -, -⟩ := readN_of_future hg6 hfut6
    rw [hlen1] at hrdN
    exact ⟨s7, hrdN⟩
  · intro s h
    obtain ⟨src, cp, stk, rep, rp⟩ := s
    replace h : rep = true := h
    subst h
    simp [RScan.startSnapshot]

/-- Witness for C2 on `"abcd"`: outer snapshot, one read, inner snapshot, two
reads, inner rewind, one read, outer rewind; plus the replay-offset anchor at
a concrete replaying state. -/
theorem c2_witness :
    ((⟨.rbs "abcd".data 3 0 true, ⟨0, 0⟩, [], true, 0⟩ : RScan).currentPos =
        (RScan.fromString "abcd").currentPos ∧
      ∃ s7, readN 1 (⟨.rbs "abcd".data 3 0 true, ⟨0, 0⟩, [], true, 0⟩ : RScan) =
        some (['a'], s7)) ∧
    (⟨.rbs "ab".data 2 0 true, ⟨0, 1⟩, [], true, 1⟩ : RScan).startSnapshot.lastSnap.head? =
      some ⟨1, ⟨0, 1⟩⟩ :=
  ⟨c2_nested_snapshots_compose.1 (RScan.fromString "abcd") 1 2 1 ['a'] ['b', 'c'] ['b']
      ⟨.rbs "abcd".data 1 0 true, ⟨0, 1⟩, [⟨0, ⟨0, 0⟩⟩], false, 0⟩
      ⟨.rbs "abcd".data 3 0 true, ⟨0, 3⟩, [⟨1, ⟨0, 1⟩⟩, ⟨0, ⟨0, 0⟩⟩], false, 0⟩
      ⟨.rbs "abcd".data 3 0 true, ⟨0, 1⟩, [⟨0, ⟨0, 0⟩⟩], true, 1⟩
      ⟨.rbs "abcd".data 3 0 true, ⟨0, 2⟩, [⟨0, ⟨0, 0⟩⟩], true, 2⟩
      ⟨.rbs "abcd".data 3 0 true, ⟨0, 0⟩, [], true, 0⟩
      (by decide) (by rfl) (by rfl) (by rfl) (by rfl) (by rfl),
   c2_nested_snapshots_compose.2 ⟨.rbs "ab".data 2 0 true, ⟨0, 1⟩, [], true, 1⟩ rfl⟩

lemma startSnapshot_source_nil {s : RScan} (h : s.lastSnap = []) :
    s.startSnapshot.source = s.source.startBuffer := by
  obtain ⟨src, cp, stk, rep, rp⟩ := s
  simp only at h
  subst h
  rfl

lemma startSnapshot_source_cons {s : RScan} {f : Snapshot} {rest : List Snapshot}
    (h : s.lastSnap = f :: rest) : s.startSnapshot.source = s.source := by
  obtain ⟨src, cp, stk, rep, rp⟩ := s
  simp only at h
  subst h
  rfl

/-- C3: evaluation of the scanner at the defect: from a fresh scanner over
`"abc"`, after `Start`, two reads, `Rewind` and one replayed read, inserting
`StartSnapshot(); PopSnapshot()` changes the next read from `'b'` to `'c'`
(the buffered-but-unreplayed rune is lost when the pop empties the stack and
drops the buffer); the same happens for the stream-backed source. -/
theorem c3_start_pop_not_noop :
    (runOps [.start, .read, .read, .rewind, .read, .start, .pop, .read]
      (RScan.fromString "abc")).map Prod.fst = some ['a', 'b', 'a', 'c'] ∧
    (runOps [.start, .read, .read, .rewind, .read, .read]
      (RScan.fromString "abc")).map Prod.fst = some ['a', 'b', 'a', 'b'] ∧
    (runOps [.start, .read, .read, .rewind, .read, .start, .pop, .read]
      (RScan.fromStream "abc".data)).map Prod.fst = some ['a', 'b', 'a', 'c'] ∧
    (runOps [.start, .read, .read, .rewind, .read, .read]
      (RScan.fromStream "abc".data)).map Prod.fst = some ['a', 'b', 'a', 'b'] :=
  ⟨rfl, rfl, rfl, rfl⟩

/-- C4 corrected: in every reachable state, a non-empty snapshot stack
implies the source is recording, and `PopSnapshot` drops the buffer exactly
when the stack it leaves behind is empty; however (see the counterexample)
`RewindSnapshot` can empty the stack while recording stays on, so recording
is not equivalent to stack non-emptiness. -/
theorem c4_recording_invariant_amended :
    (∀ s : RScan, Reachable s → s.lastSnap ≠ [] → s.source.recording = true) ∧
    (∀ s s' : RScan, s.popSnapshot = some s' →
      (s'.lastSnap = [] → s'.source = s.source.dropBuffer) ∧
      (s'.lastSnap ≠ [] → s'.source = s.source)) := by
  constructor
  · intro s hs
    induction hs with
    | fromString str =>
      intro h
      simp [RScan.fromString] at h
    | fromStream cs =>
      intro h
      simp [RScan.fromStream] at h
    | read hs hr ih =>
      intro h
      obtain ⟨hstk, hrec, -⟩ := read_ok_basic hr
      rw [hrec]
      rw [hstk] at h
      exact ih h
    | readEof hs hr ih =>
      intro h
      obtain ⟨-, hsrc, hstk, -, -⟩ := read_eof_state hr
      rw [hsrc]
      rw [hstk] at h
      exact ih h
    | start hs ih =>
      intro hne0
      rename_i s0
      cases hstk : s0.lastSnap with
      | nil =>
        rw [startSnapshot_source_nil hstk]
        exact BTS.startBuffer_recording _
      | cons f rest =>
        rw [startSnapshot_source_cons hstk]
        exact ih (by rw [hstk]; simp)
    | rewind hs hrw ih =>
      intro h
      rename_i s0 s1
      cases hstk : s0.lastSnap with
      | nil =>
        obtain ⟨src, cp, stk, rep, rp⟩ := s0
        simp only at hstk
        subst hstk
        simp [RScan.rewindSnapshot] at hrw
      | cons f rest =>
        rw [rewindSnapshot_cons hstk] at hrw
        injection hrw with hrw
        subst hrw
        exact ih (by rw [hstk]; simp)
    | pop hs hp ih =>
      intro h
      rename_i s0 s1
      cases hstk : s0.lastSnap with
      | nil =>
        obtain ⟨src, cp, stk, rep, rp⟩ := s0
        simp only at hstk
        subst hstk
        simp [RScan.popSnapshot] at hp
      | cons f rest =>
        cases rest with
        | nil =>
          rw [popSnapshot_cons_nil hstk] at hp
          injection hp with hp
          subst hp
          simp at h
        | cons g rest' =>
          rw [popSnapshot_cons_cons hstk] at hp
          injection hp with hp
          subst hp
          exact ih (by rw [hstk]; simp)
  · intro s s' hp
    cases hstk : s.lastSnap with
    | nil =>
      obtain ⟨src, cp, stk, rep, rp⟩ := s
      simp only at hstk
      subst hstk
      simp [RScan.popSnapshot] at hp
    | cons f rest =>
      cases rest with
      | nil =>
        rw [popSnapshot_cons_nil hstk] at hp
        injection hp with hp
        subst hp
        exact ⟨fun _ => rfl, fun h => absurd rfl h⟩
      | cons g rest' =>
        rw [popSnapshot_cons_cons hstk] at hp
        injection hp with hp
        subst hp
        exact ⟨fun h => absurd h (by simp), fun _ => rfl⟩

/-- Counterexample to C4 as stated: the state reached by `StartSnapshot`
then `RewindSnapshot` on a fresh scanner over `"ab"` has an empty snapshot
stack while the source is still recording (and the buffer was not dropped),
refuting "recording iff the stack is non-empty" and "the buffer is dropped
exactly when the stack empties". -/
theorem c4_counterexample :
    Reachable ⟨.rbs "ab".data 0 0 true, ⟨0, 0⟩, [], true, 0⟩ ∧
    (⟨.rbs "ab".data 0 0 true, ⟨0, 0⟩, [], true, 0⟩ : RScan).lastSnap = [] ∧
    (⟨.rbs "ab".data 0 0 true, ⟨0, 0⟩, [], true, 0⟩ : RScan).source.recording = true :=
  ⟨Reachable.rewind (Reachable.start (Reachable.fromString "ab")) (by rfl), rfl, rfl⟩

/-- Witness for C4's amended invariant at concrete states. -/
theorem c4_witness :
    (RScan.fromString "a").startSnapshot.source.recording = true ∧
    (⟨.rbs "a".data 1 0 false, ⟨0, 1⟩, [], false, 0⟩ : RScan).source =
      (⟨.rbs "a".data 1 0 true, ⟨0, 1⟩, [⟨0, ⟨0, 0⟩⟩], false, 0⟩ : RScan).source.dropBuffer :=
  ⟨c4_recording_invariant_amended.1 _ (Reachable.start (Reachable.fromString "a"))
      (by decide),
   (c4_recording_invariant_amended.2
      ⟨.rbs "a".data 1 0 true, ⟨0, 1⟩, [⟨0, ⟨0, 0⟩⟩], false, 0⟩
      ⟨.rbs "a".data 1 0 false, ⟨0, 1⟩, [], false, 0⟩ (by rfl)).1 rfl⟩

/-- C9: `RewindSnapshot` or `PopSnapshot` on an empty snapshot stack is the
fatal branch (`none`, modelling the Go panic, never an ordinary result), and
no run of any parser built from the provided combinators from a well-formed
source state ever panics — neither through these branches nor through an
out-of-bounds buffer read. -/
theorem c9_fatal_branches_unreachable :
    (∀ s : RScan, s.lastSnap = [] → s.rewindSnapshot = none ∧ s.popSnapshot = none) ∧
    (∀ (n : Nat) (p : PParser) (s : RScan), BTS.SrcInv s.source →
      parseStep n (.run p) s ≠ .panic) := by
  constructor
  · intro s h
    obtain ⟨src, cp, stk, rep, rp⟩ := s
    simp only at h
    subst h
    exact ⟨by simp [RScan.rewindSnapshot], by simp [RScan.popSnapshot]⟩
  · intro n p s hsi
    exact (step_sound n (.run p) s hsi).2.1

/-- Witness for C9 at a fresh scanner and a concrete combinator. -/
theorem c9_witness :
    ((RScan.fromString "xyz").rewindSnapshot = none ∧
      (RScan.fromString "xyz").popSnapshot = none) ∧
    parseStep 10 (.run (.maybe (.token "xy"))) (RScan.fromString "xyz") ≠ .panic :=
  ⟨c9_fatal_branches_unreachable.1 _ rfl,
   c9_fatal_branches_unreachable.2 10 (.maybe (.token "xy")) (RScan.fromString "xyz")
     (by decide)⟩

/-- C10: on every scanner with at least one remaining rune, `EOF().Parse`
returns a failure and leaves the scanner advanced by the rune it read to
detect non-EOF; no snapshot is taken, the rune is not restored, and the
position has changed. -/
theorem c10_eof_consumes_on_failure :
    ∀ (n : Nat) (s : RScan) (c : Char) (s1 : RScan), s.read = .ok c s1 →
      parseStep (n + 1) (.run .eofP) s =
        .res (.failure (TextRange.single s1.currentPos)
          ("expected EOF, got " ++ String.singleton c)) s1 ∧
      s1.currentPos = s.currentPos.advance c ∧ s1.currentPos ≠ s.currentPos := by
  intro n s c s1 h
  obtain ⟨-, -, hpos⟩ := read_ok_basic h
  refine ⟨?_, hpos, ?_⟩
  · rw [parseStep_eofP, h]
  · rw [hpos]
    exact TextPos.advance_ne _ _

/-- Witness for C10 on `"a"`. -/
theorem c10_witness :
    parseStep 6 (.run .eofP) (RScan.fromString "a") =
      .res (.failure (TextRange.single (⟨0, 1⟩ : TextPos))
        ("expected EOF, got " ++ String.singleton 'a'))
        ⟨.rbs "a".data 1 0 false, ⟨0, 1⟩, [], false, 0⟩ ∧
    (⟨.rbs "a".data 1 0 false, ⟨0, 1⟩, [], false, 0⟩ : RScan).currentPos =
      (RScan.fromString "a").currentPos.advance 'a' ∧
    (⟨.rbs "a".data 1 0 false, ⟨0, 1⟩, [], false, 0⟩ : RScan).currentPos ≠
      (RScan.fromString "a").currentPos :=
  c10_eof_consumes_on_failure 5 (RScan.fromString "a") 'a'
    ⟨.rbs "a".data 1 0 false, ⟨0, 1⟩, [], false, 0⟩ (by rfl)

/-- C5: for every parser and every input string, when `Maybe(p).Parse`
returns, it returns a success: if the inner parse succeeded it is the inner
result after popping the snapshot; if the inner parse failed, the snapshot
is rewound — the scanner's position is back at the start and the runes still
to be read are exactly the whole input, so no input is consumed overall —
and the result is a zero-length success carrying the neutral empty string. -/
theorem c5_maybe_never_fails :
    ∀ (n : Nat) (inner : PParser) (str : String) (r : PResult) (s' : RScan),
      parseStep (n + 1) (.run (.maybe inner)) (RScan.fromString str) = .res r s' →
      r.matched = true ∧
      (∀ ri si, parseStep n (.run inner) (RScan.fromString str).startSnapshot = .res ri si →
        (ri.matched = true → r = ri) ∧
        (ri.matched = false →
          r = .success (TextRange.single s'.currentPos) (.str "") ∧
          s'.currentPos = (RScan.fromString str).currentPos ∧
          futureRunes s' = str.data)) := by
  intro n inner str r s' h
  rw [parseStep_maybe] at h
  have hg0 := good_fromString str
  obtain ⟨hstkS, hcpS, hrepS, hrpS, hgS, hrecS, hfutS, hreplS, hoffS, -⟩ :=
    startSnapshot_spec hg0
  obtain ⟨-, -, iP⟩ := step_sound n (.run inner) (RScan.fromString str).startSnapshot hgS.1
  cases hout : parseStep n (.run inner) (RScan.fromString str).startSnapshot with
  | res ri si =>
    obtain ⟨hsi_i, hstk_i⟩ := iP si (by rw [hout]; rfl)
    have hstk_i' : si.lastSnap =
        [⟨snapOff (RScan.fromString str), (RScan.fromString str).currentPos⟩] := by
      rw [hstk_i, hstkS]
      rfl
    obtain ⟨hg_i, hext_i⟩ := step_good n (.run inner) (RScan.fromString str).startSnapshot
      hgS (by rw [hstkS]; simp) si (by rw [hout]; rfl)
    rw [hout] at h
    dsimp only at h
    by_cases hm : ri.matched = true
    · rw [if_pos hm, popSnapshot_cons_nil hstk_i'] at h
      dsimp only at h
      injection h with h1 h2
      subst h1
      subst h2
      refine ⟨hm, ?_⟩
      intro ri' si' h'
      injection h' with h3 h4
      subst h3
      subst h4
      refine ⟨fun _ => rfl, fun hf => ?_⟩
      rw [hm] at hf
      exact absurd hf (by simp)
    · rw [if_neg hm, rewindSnapshot_cons hstk_i'] at h
      dsimp only at h
      injection h with h1 h2
      subst h1
      subst h2
      refine ⟨rfl, ?_⟩
      intro ri' si' h'
      injection h' with h3 h4
      subst h3
      subst h4
      refine ⟨fun ht => ?_, fun _ => ⟨rfl, rfl, ?_⟩⟩
      · rw [ht] at hm
        exact absurd rfl hm
      · rw [futureRunes_mk_true]
        show replayFrom (snapOff (RScan.fromString str)) si.source = _
        rw [replayFrom_extends hext_i hgS.1 hoffS, hreplS, futureRunes_fromString]
  | panic =>
    rw [hout] at h
    exact absurd h (by simp)
  | fuelOut =>
    rw [hout] at h
    exact absurd h (by simp)
  | seqDone e vals s0 =>
    rw [hout] at h
    exact absurd h (by simp)
  | manyDone vals att s0 =>
    rw [hout] at h
    exact absurd h (by simp)
  | mapDone acc s0 =>
    rw [hout] at h
    exact absurd h (by simp)

/-- Witness for C5: `Maybe(Char('x'))` on `"ab"` fails inside, and the
wrapper returns a zero-length success at the start with nothing consumed. -/
theorem c5_witness :
    (PResult.success (TextRange.single (⟨0, 0⟩ : TextPos)) (.str "")).matched = true ∧
    ((PResult.success (TextRange.single (⟨0, 0⟩ : TextPos)) (.str "")) =
        .success (TextRange.single
          (⟨.rbs "ab".data 1 0 true, ⟨0, 0⟩, [], true, 0⟩ : RScan).currentPos) (.str "") ∧
      (⟨.rbs "ab".data 1 0 true, ⟨0, 0⟩, [], true, 0⟩ : RScan).currentPos =
        (RScan.fromString "ab").currentPos ∧
      futureRunes ⟨.rbs "ab".data 1 0 true, ⟨0, 0⟩, [], true, 0⟩ = "ab".data) :=
  ⟨(c5_maybe_never_fails 5 (.char 'x' 'x') "ab"
      (.success (TextRange.single (⟨0, 0⟩ : TextPos)) (.str ""))
      ⟨.rbs "ab".data 1 0 true, ⟨0, 0⟩, [], true, 0⟩ (by rfl)).1,
   ((c5_maybe_never_fails 5 (.char 'x' 'x') "ab"
      (.success (TextRange.single (⟨0, 0⟩ : TextPos)) (.str ""))
      ⟨.rbs "ab".data 1 0 true, ⟨0, 0⟩, [], true, 0⟩ (by rfl)).2
      (.failure (TextRange.single (⟨0, 1⟩ : TextPos)) "expected a character in the range")
      ⟨.rbs "ab".data 1 0 true, ⟨0, 1⟩, [⟨0, ⟨0, 0⟩⟩], false, 0⟩ (by rfl)).2 rfl⟩

/-- C6: evaluation exhibiting the defect: with
`p = Sequence(Or(Token("ax"), Char('a')), Char('b'))` on input `"ab"`,
`p` alone fails (the scanner loses the buffered-but-unreplayed rune `'b'`
when `Or`'s `PopSnapshot` empties the stack mid-replay) while
`Or(p, AlwaysFails)` succeeds with `"ab"` — so `Or(p, AlwaysFails)` does not
yield the same result as `p` alone. -/
theorem c6_or_identity_violated :
    ((parseStep 12 (.run (.seq [.orP [.token "ax", .char 'a' 'a'], .char 'b' 'b']))
      (RScan.fromString "ab")).resultOf).map PResult.matched = some false ∧
    ((parseStep 12 (.run (.orP [.seq [.orP [.token "ax", .char 'a' 'a'], .char 'b' 'b'],
      AlwaysFails])) (RScan.fromString "ab")).resultOf).map PResult.matched = some true ∧
    ((parseStep 12 (.run (.orP [.seq [.orP [.token "ax", .char 'a' 'a'], .char 'b' 'b'],
      AlwaysFails])) (RScan.fromString "ab")).resultOf).map
        (fun r => r.resultValue.asString) = some (some "ab") :=
  ⟨rfl, rfl, rfl⟩

/-- C8: evaluation exhibiting the defect: `Many(Or(Token("ax"), Char('a')))`
on `"ab"` succeeds once (k = 1) matching only `"a"`, yet the final scanner
has no runes left to read — the unmatched rune `'b'` was consumed (lost at
the `PopSnapshot` that emptied the stack mid-replay), so `Many` consumed
more than the input matched by its successes. -/
theorem c8_many_loses_input :
    ((parseStep 14 (.run (.many (.orP [.token "ax", .char 'a' 'a']) true))
      (RScan.fromString "ab")).resultOf).map PResult.matched = some true ∧
    ((parseStep 14 (.run (.many (.orP [.token "ax", .char 'a' 'a']) true))
      (RScan.fromString "ab")).resultOf).map
        (fun r => r.resultValue.asString) = some (some "a") ∧
    ((parseStep 14 (.run (.many (.orP [.token "ax", .char 'a' 'a']) true))
      (RScan.fromString "ab")).scanOf).map futureRunes = some [] :=
  ⟨rfl, rfl, rfl⟩

lemma subRuns_head : ∀ (n : Nat) (p : PParser) (ps : List PParser) (s : RScan)
    (r1 : PResult) (rest : List PResult) (s'' : RScan),
    subRuns n (p :: ps) s = .allOk (r1 :: rest) s'' →
    ∃ k s1, n = k + 1 ∧ parseStep k (.run p) s = .res r1 s1 ∧ r1.matched = true := by
  intro n p ps s r1 rest s'' h
  cases n with
  | zero => simp [subRuns] at h
  | succ k =>
    have hsub : subRuns (k + 1) (p :: ps) s =
        match parseStep k (.run p) s with
        | .res r s' =>
          if r.matched then
            match subRuns k ps s' with
            | .allOk rs s'' => .allOk (r :: rs) s''
            | .firstFail rf s'' => .firstFail rf s''
            | .abort => .abort
          else .firstFail r s'
        | _ => .abort := rfl
    rw [hsub] at h
    cases hrun : parseStep k (.run p) s with
    | res r0 s0 =>
      rw [hrun] at h
      dsimp only at h
      by_cases hm : r0.matched = true
      · rw [if_pos hm] at h
        cases hsr : subRuns k ps s0 with
        | allOk rs' s1 =>
          rw [hsr] at h
          dsimp only at h
          injection h with h1 h2
          injection h1 with h3 h4
          subst h3
          exact ⟨k, s0, rfl, hrun, hm⟩
        | firstFail rf' s1 => rw [hsr] at h; exact absurd h (by simp)
        | abort => rw [hsr] at h; exact absurd h (by simp)
      · rw [if_neg hm] at h
        exact absurd h (by simp)
    | panic => rw [hrun] at h; dsimp only at h; exact absurd h (by simp)
    | fuelOut => rw [hrun] at h; dsimp only at h; exact absurd h (by simp)
    | seqDone e vals s0 => rw [hrun] at h; dsimp only at h; exact absurd h (by simp)
    | manyDone vals att s0 => rw [hrun] at h; dsimp only at h; exact absurd h (by simp)
    | mapDone acc s0 => rw [hrun] at h; dsimp only at h; exact absurd h (by simp)

/-- C7: `Sequence(p1..pn)` runs the parsers in order: when one of them fails
first, that failing sub-result is returned unchanged (with the scanner where
it stopped); when all succeed, the result is a success whose range spans
from the first sub-result's start (the sequence's start position) to the
last sub-result's end, and whose value follows the merge rule: the
concatenation into one string when every sub-result is a string (empty
strings neutral), otherwise the ordered list of all sub-results
(`specMerge`, proven equal to the code's `cleanupResult`). -/
theorem c7_sequence_runs_in_order :
    ∀ (n : Nat) (ps : List PParser) (s : RScan), BTS.SrcInv s.source →
      (∀ rf s'', subRuns n ps s = .firstFail rf s'' →
        parseStep (n + 1) (.run (.seq ps)) s = .res rf s'' ∧ rf.matched = false) ∧
      (∀ rs s'', subRuns n ps s = .allOk rs s'' →
        parseStep (n + 1) (.run (.seq ps)) s =
          .res (.success (TextRange.range s.currentPos (lastEnd ⟨0, 0⟩ rs))
            (specMerge (rs.map PResult.resultValue))) s'' ∧
        (∀ r1, rs.head? = some r1 → r1.range.start = s.currentPos) ∧
        (∀ rL, rs.getLast? = some rL → lastEnd ⟨0, 0⟩ rs = rL.range.endPos)) := by
  intro n ps s hsi
  have hchar := seqL_subRuns n ps s ⟨0, 0⟩ []
  constructor
  · intro rf s'' h
    obtain ⟨heq, hmf⟩ := hchar.2 rf s'' h
    refine ⟨?_, hmf⟩
    rw [parseStep_seq, heq]
  · intro rs s'' h
    have heq := hchar.1 rs s'' h
    refine ⟨?_, ?_, ?_⟩
    · rw [parseStep_seq, heq]
      dsimp only
      rw [List.nil_append, cleanupResult_eq_specMerge]
    · intro r1 hh
      cases ps with
      | nil =>
        cases n with
        | zero => simp [subRuns] at h
        | succ k =>
          simp only [subRuns, SubOut.allOk.injEq] at h
          rw [← h.1] at hh
          simp at hh
      | cons p ps' =>
        cases rs with
        | nil => simp at hh
        | cons r0 rest =>
          simp only [List.head?_cons, Option.some.injEq] at hh
          subst hh
          obtain ⟨k, s1, hn, hrun, hm⟩ := subRuns_head n p ps' s r0 rest s'' h
          exact (step_success_start k (.run p) s hsi r0 s1 hrun).1 p rfl hm
    · intro rL hh
      unfold lastEnd
      rw [hh]

/-- Witness for C7: `Sequence(Char('a'), Char('b'))` on `"ab"` yields the
string `"ab"` spanning both characters. -/
theorem c7_witness :
    parseStep 6 (.run (.seq [.char 'a' 'a', .char 'b' 'b'])) (RScan.fromString "ab") =
      .res (.success (TextRange.range (RScan.fromString "ab").currentPos
          (lastEnd ⟨0, 0⟩
            [.success (TextRange.range ⟨0, 0⟩ ⟨0, 1⟩) (.str "a"),
             .success (TextRange.range ⟨0, 1⟩ ⟨0, 2⟩) (.str "b")]))
        (specMerge ([.success (TextRange.range ⟨0, 0⟩ ⟨0, 1⟩) (.str "a"),
          .success (TextRange.range ⟨0, 1⟩ ⟨0, 2⟩) (.str "b")].map PResult.resultValue)))
        ⟨.rbs "ab".data 2 0 false, ⟨0, 2⟩, [], false, 0⟩ ∧
    (PResult.success (TextRange.range (⟨0, 0⟩ : TextPos) ⟨0, 1⟩) (.str "a")).range.start =
      (RScan.fromString "ab").currentPos :=
  ⟨((c7_sequence_runs_in_order 5 [.char 'a' 'a', .char 'b' 'b'] (RScan.fromString "ab")
      (by decide)).2
      [.success (TextRange.range ⟨0, 0⟩ ⟨0, 1⟩) (.str "a"),
       .success (TextRange.range ⟨0, 1⟩ ⟨0, 2⟩) (.str "b")]
      ⟨.rbs "ab".data 2 0 false, ⟨0, 2⟩, [], false, 0⟩ (by rfl)).1,
   (((c7_sequence_runs_in_order 5 [.char 'a' 'a', .char 'b' 'b'] (RScan.fromString "ab")
      (by decide)).2
      [.success (TextRange.range ⟨0, 0⟩ ⟨0, 1⟩) (.str "a"),
       .success (TextRange.range ⟨0, 1⟩ ⟨0, 2⟩) (.str "b")]
      ⟨.rbs "ab".data 2 0 false, ⟨0, 2⟩, [], false, 0⟩ (by rfl)).2.1)
      (.success (TextRange.range ⟨0, 0⟩ ⟨0, 1⟩) (.str "a")) (by rfl)⟩
